import Mathlib

/-!
# Verification of the dithering core of `video_dithering.py`

Shallow embedding of the five dithering algorithms (Floyd-Steinberg,
Atkinson, Jarvis-Judice-Ninke, ordered/Bayer, random threshold) and the
dispatcher `apply_dithering`.

Modelling conventions:
* an image/accumulator is a total function `ℕ → ℕ → α` together with its
  dimensions `hh × ww` (only indices `y < hh`, `x < ww` are meaningful);
  the `float32` accumulator of the source is modelled with exact rational
  arithmetic `ℚ`;
* the in-place updates `img[y, x] += e` of the source become functional
  updates `upd`/`addIf` on the accumulator, with exactly the bounds guards
  written in the source;
* the row-major double loop `for y in range(h): for x in range(w)` becomes
  a fold over the coordinate list `coords hh ww`;
* `np.random.uniform` noise is an injected function argument (per-pixel
  noise values), so theorems quantify over every possible noise draw;
* `np.clip(img, 0, 255).astype(np.uint8)` becomes `toByte` applied
  pixelwise (clamp to `[0,255]`, then truncate to a natural number).
-/

namespace VideoDithering

/-- A (conceptually `hh × ww`) image or accumulator with entries in `α`. -/
abbrev Img (α : Type) := ℕ → ℕ → α

/-- Functional update of one pixel: the semantics of `img[y, x] = v`. -/
def upd {α : Type} (g : Img α) (y x : ℕ) (v : α) : Img α :=
  fun a b => if a = y ∧ b = x then v else g a b

@[simp] lemma upd_apply_self {α : Type} (g : Img α) (y x : ℕ) (v : α) :
    upd g y x v y x = v := if_pos ⟨rfl, rfl⟩

lemma upd_apply_ne {α : Type} (g : Img α) (y x : ℕ) (v : α) {a b : ℕ}
    (hab : ¬(a = y ∧ b = x)) : upd g y x v a b = g a b := if_neg hab

/-- Guarded error add: the semantics of `if c: img[y, x] += v`. -/
def addIf {α : Type} [Add α] (c : Prop) [Decidable c] (y x : ℕ) (v : α)
    (g : Img α) : Img α :=
  if c then upd g y x (g y x + v) else g

lemma addIf_apply_ne {α : Type} [Add α] (c : Prop) [Decidable c] (y x : ℕ)
    (v : α) (g : Img α) {a b : ℕ} (hab : ¬(a = y ∧ b = x)) :
    addIf c y x v g a b = g a b := by
  unfold addIf
  split_ifs with hc
  · exact upd_apply_ne _ _ _ _ hab
  · rfl

/-- Adding zero error is invisible, whether or not the guard holds. -/
lemma addIf_zero {α : Type} [AddZeroClass α] (c : Prop) [Decidable c]
    (y x : ℕ) (g : Img α) : addIf c y x (0 : α) g = g := by
  funext a b
  unfold addIf
  split_ifs with hc
  · unfold upd
    split_ifs with hab
    · obtain ⟨rfl, rfl⟩ := hab
      exact add_zero _
    · rfl
  · rfl

/-! ## Row-major order and the coordinate list -/

/-- Strict row-major (scan) order on pixel coordinates `(y, x)`. -/
def rmLt (p q : ℕ × ℕ) : Prop := p.1 < q.1 ∨ (p.1 = q.1 ∧ p.2 < q.2)

lemma rmLt_irrefl (p : ℕ × ℕ) : ¬ rmLt p p := by
  unfold rmLt; omega

lemma rmLt_ne {p q : ℕ × ℕ} (h : rmLt p q) : p ≠ q := by
  rintro rfl; exact rmLt_irrefl _ h

lemma rmLt_asymm {p q : ℕ × ℕ} (h : rmLt p q) : ¬ rmLt q p := by
  unfold rmLt at *; omega

/-- The pixels of an `hh × ww` image in the visiting order of the source's
`for y in range(h): for x in range(w)` loop. -/
def coords (hh ww : ℕ) : List (ℕ × ℕ) :=
  (List.range hh).flatMap fun y => (List.range ww).map fun x => (y, x)

lemma mem_coords {hh ww : ℕ} {p : ℕ × ℕ} :
    p ∈ coords hh ww ↔ p.1 < hh ∧ p.2 < ww := by
  obtain ⟨y, x⟩ := p
  simp only [coords, List.mem_flatMap, List.mem_map, List.mem_range]
  constructor
  · rintro ⟨a, ha, b, hb, h⟩
    injection h with h1 h2
    subst h1; subst h2
    exact ⟨ha, hb⟩
  · rintro ⟨hy, hx⟩
    exact ⟨y, hy, x, hx, rfl⟩

lemma coords_pairwise (hh ww : ℕ) : (coords hh ww).Pairwise rmLt := by
  induction hh with
  | zero => simp [coords]
  | succ n ih =>
    have : coords (n + 1) ww =
        coords n ww ++ (List.range ww).map fun x => (n, x) := by
      unfold coords
      rw [List.range_succ, List.flatMap_append]
      simp
    rw [this, List.pairwise_append]
    refine ⟨ih, ?_, ?_⟩
    · rw [List.pairwise_map]
      refine List.Pairwise.imp ?_ (List.pairwise_lt_range ww)
      intro a b hab
      exact Or.inr ⟨rfl, hab⟩
    · intro a ha b hb
      have ha' : a.1 < n := (mem_coords.mp ha).1
      have hb' : b.1 = n := by
        simp only [List.mem_map, List.mem_range] at hb
        obtain ⟨x, _, rfl⟩ := hb
        rfl
      exact Or.inl (by omega)

/-! ## The scan loop -/

/-- Fold a per-pixel state transformer over a list of coordinates:
the semantics of the double loop of the source. -/
def scan {α : Type} (S : Img α → ℕ × ℕ → Img α) (g : Img α)
    (cs : List (ℕ × ℕ)) : Img α :=
  cs.foldl S g

@[simp] lemma scan_nil {α : Type} (S : Img α → ℕ × ℕ → Img α) (g : Img α) :
    scan S g [] = g := rfl

@[simp] lemma scan_cons {α : Type} (S : Img α → ℕ × ℕ → Img α) (g : Img α)
    (c : ℕ × ℕ) (cs : List (ℕ × ℕ)) :
    scan S g (c :: cs) = scan S (S g c) cs := rfl

/-- A pixel touched by no step of the scan keeps its value. -/
lemma scan_untouched {α : Type} (S : Img α → ℕ × ℕ → Img α)
    (cs : List (ℕ × ℕ)) (q : ℕ × ℕ)
    (h : ∀ g r, r ∈ cs → S g r q.1 q.2 = g q.1 q.2) :
    ∀ g : Img α, scan S g cs q.1 q.2 = g q.1 q.2 := by
  induction cs with
  | nil => intro g; rfl
  | cons c rest ih =>
    intro g
    rw [scan_cons, ih (fun g r hr => h g r (List.mem_cons_of_mem _ hr)),
      h g c (List.mem_cons_self _ _)]

/-- Closure invariant for the diffusion scans: if every step leaves
strictly earlier pixels alone and writes a `P`-value at its own pixel,
then after the scan every visited pixel holds a `P`-value. -/
lemma scan_closure {α : Type} (P : α → Prop) (S : Img α → ℕ × ℕ → Img α)
    (cs : List (ℕ × ℕ)) (hps : cs.Pairwise rmLt)
    (hloc : ∀ g (p q : ℕ × ℕ), rmLt q p → S g p q.1 q.2 = g q.1 q.2)
    (hq : ∀ g (p : ℕ × ℕ), p ∈ cs → P (S g p p.1 p.2)) :
    ∀ g, ∀ p ∈ cs, P (scan S g cs p.1 p.2) := by
  induction cs with
  | nil => intro g p hp; cases hp
  | cons c rest ih =>
    intro g p hp
    rw [scan_cons]
    rcases List.mem_cons.mp hp with rfl | hp'
    · have hrest : ∀ g' r, r ∈ rest → S g' r p.1 p.2 = g' p.1 p.2 := by
        intro g' r hr
        exact hloc g' r p (List.rel_of_pairwise_cons hps hr)
      rw [scan_untouched S rest p hrest]
      exact hq g p (List.mem_cons_self _ _)
    · exact ih (List.Pairwise.of_cons hps)
        (fun g' p' hp'' => hq g' p' (List.mem_cons_of_mem _ hp''))
        (S g c) p hp'

/-- For per-pixel methods (ordered and random dithering): each step only
writes its own pixel and only reads its own pixel, so the final value of
every visited pixel is the step applied to the initial image. -/
lemma scan_pointwise {α : Type} (S : Img α → ℕ × ℕ → Img α)
    (cs : List (ℕ × ℕ)) (hnd : cs.Pairwise (· ≠ ·))
    (honly : ∀ g (p q : ℕ × ℕ), q ≠ p → S g p q.1 q.2 = g q.1 q.2)
    (hdep : ∀ (g g' : Img α) (p : ℕ × ℕ), g p.1 p.2 = g' p.1 p.2 →
      S g p p.1 p.2 = S g' p p.1 p.2) :
    ∀ g, ∀ p ∈ cs, scan S g cs p.1 p.2 = S g p p.1 p.2 := by
  induction cs with
  | nil => intro g p hp; cases hp
  | cons c rest ih =>
    intro g p hp
    rw [scan_cons]
    rcases List.mem_cons.mp hp with rfl | hp'
    · exact scan_untouched S rest p
        (fun g' r hr => honly g' r p (List.rel_of_pairwise_cons hnd hr))
        (S g p)
    · rw [ih (List.Pairwise.of_cons hnd) (S g c) p hp']
      exact hdep (S g c) g p
        (honly g c p (Ne.symm (List.rel_of_pairwise_cons hnd hp')))

/-- Two scans with stepwise-equal transformers agree. -/
lemma scan_congr {α : Type} (S T : Img α → ℕ × ℕ → Img α)
    (cs : List (ℕ × ℕ)) (h : ∀ g, ∀ p ∈ cs, S g p = T g p) :
    ∀ g, scan S g cs = scan T g cs := by
  induction cs with
  | nil => intro g; rfl
  | cons c rest ih =>
    intro g
    rw [scan_cons, scan_cons, h g c (List.mem_cons_self _ _)]
    exact ih (fun g' p hp => h g' p (List.mem_cons_of_mem _ hp)) _

/-! ## Colors, palettes, nearest-color search -/

/-- A palette entry: an integer 3-tuple, as in the source's palette lists. -/
abbrev Color := ℕ × ℕ × ℕ

/-- A working color value in the float accumulator. -/
abbrev ColorQ := ℚ × ℚ × ℚ

/-- `np.array(color, dtype=np.float32)`: palette entry as accumulator value. -/
def colorToQ (c : Color) : ColorQ := ((c.1 : ℚ), (c.2.1 : ℚ), (c.2.2 : ℚ))

/-- Numpy broadcast of a scalar product over a color: `v * s`. -/
def csmul (v : ColorQ) (s : ℚ) : ColorQ := (v.1 * s, v.2.1 * s, v.2.2 * s)

/-- Numpy broadcast of a scalar division over a color: `v / s`. -/
def cdivs (v : ColorQ) (s : ℚ) : ColorQ := (v.1 / s, v.2.1 / s, v.2.2 / s)

/-- The default 8-color palette, hard-coded identically in all five
dithering functions of the source. -/
def defaultPalette : List Color :=
  [(0, 0, 0), (255, 255, 255), (255, 0, 0), (0, 255, 0),
   (0, 0, 255), (255, 255, 0), (255, 0, 255), (0, 255, 255)]

/-- Squared Euclidean distance between an accumulator color and a palette
entry.  `np.linalg.norm(old_pixel - np.array(color))` is its square root;
since `√` is strictly monotone on nonnegatives, comparisons (and hence
`np.argmin`) of the norms agree with comparisons of these squares. -/
def dist2 (p : ColorQ) (c : Color) : ℚ :=
  (p.1 - (c.1 : ℚ)) ^ 2 + (p.2.1 - (c.2.1 : ℚ)) ^ 2 + (p.2.2 - (c.2.2 : ℚ)) ^ 2

/-- The genuine Euclidean distance computed by `np.linalg.norm`. -/
noncomputable def euclidDist (p : ColorQ) (c : Color) : ℝ :=
  Real.sqrt ((dist2 p c : ℚ) : ℝ)

/-- Index of the first minimum of a list: the semantics of `np.argmin`
(`0` on the empty list, where numpy instead raises). -/
def argmin : List ℚ → ℕ
  | [] => 0
  | d :: rest => if rest.all fun e => d ≤ e then 0 else argmin rest + 1

/-- `np.argmin(distances)` for `distances = [norm(p - c) for c in palette]`. -/
def nearestIdx (p : ColorQ) (palette : List Color) : ℕ :=
  argmin (palette.map (dist2 p))

/-- `palette[np.argmin(distances)]`: nearest palette entry, ties broken by
first occurrence. -/
def nearestColor (p : ColorQ) (palette : List Color) : Color :=
  palette.getD (nearestIdx p palette) (0, 0, 0)

/-- The grayscale quantizer `255 if old_pixel > 128 else 0`, written
identically in the grayscale branch of every dithering function. -/
def grayQuant (v : ℚ) : ℚ := if v > 128 then 255 else 0

/-- The color quantizer
`np.array(palette[np.argmin(distances)], dtype=np.float32)` shared by the
color branches. -/
def colorQuant (palette : List Color) (v : ColorQ) : ColorQ :=
  colorToQ (nearestColor v palette)

lemma grayQuant_mem (v : ℚ) : grayQuant v = 0 ∨ grayQuant v = 255 := by
  unfold grayQuant
  split_ifs with h
  · exact Or.inr rfl
  · exact Or.inl rfl

lemma argmin_lt_length {ds : List ℚ} (h : ds ≠ []) : argmin ds < ds.length := by
  induction ds with
  | nil => exact absurd rfl h
  | cons d rest ih =>
    unfold argmin
    split_ifs with hall
    · simp
    · rcases rest with _ | ⟨e, rest'⟩
      · simp [List.all_nil] at hall
      · have := ih (by simp)
        simpa [Nat.succ_lt_succ_iff] using this

lemma argmin_min {ds : List ℚ} :
    ∀ j < ds.length, ds.getD (argmin ds) 0 ≤ ds.getD j 0 := by
  induction ds with
  | nil => intro j hj; simp at hj
  | cons d rest ih =>
    intro j hj
    unfold argmin
    split_ifs with hall
    · rcases j with _ | j'
      · simp
      · simp only [List.getD_cons_zero, List.getD_cons_succ]
        have hj' : j' < rest.length := by simpa using hj
        rw [List.getD_eq_getElem?_getD, List.getElem?_eq_getElem hj']
        simpa using of_decide_eq_true
          (List.all_eq_true.mp hall _ (List.getElem_mem hj'))
    · rcases j with _ | j'
      · simp only [List.getD_cons_succ, List.getD_cons_zero]
        obtain ⟨e, he, hde⟩ := by
          simpa [List.all_eq_true, not_forall] using hall
        obtain ⟨k, hk, hek⟩ := List.mem_iff_getElem.mp he
        calc rest.getD (argmin rest) 0 ≤ rest.getD k 0 := ih k hk
          _ = e := by simp [List.getD_eq_getElem?_getD, List.getElem?_eq_getElem hk, hek]
          _ ≤ d := hde.le
      · simp only [List.getD_cons_succ]
        exact ih j' (by simpa using hj)

lemma argmin_first {ds : List ℚ} :
    ∀ j < argmin ds, ds.getD (argmin ds) 0 < ds.getD j 0 := by
  induction ds with
  | nil => intro j hj; simp [argmin] at hj
  | cons d rest ih =>
    intro j hj
    simp only [argmin] at hj ⊢
    split_ifs at hj ⊢ with hall
    · omega
    · rcases j with _ | j'
      · simp only [List.getD_cons_succ, List.getD_cons_zero]
        obtain ⟨e, he, hde⟩ := by
          simpa [List.all_eq_true, not_forall] using hall
        obtain ⟨k, hk, hek⟩ := List.mem_iff_getElem.mp he
        calc rest.getD (argmin rest) 0 ≤ rest.getD k 0 := argmin_min k hk
          _ = e := by simp [List.getD_eq_getElem?_getD, List.getElem?_eq_getElem hk, hek]
          _ < d := hde
      · simp only [List.getD_cons_succ]
        exact ih j' (by omega)

lemma nearestIdx_lt_length (p : ColorQ) {palette : List Color}
    (h : palette ≠ []) : nearestIdx p palette < palette.length := by
  have := @argmin_lt_length (palette.map (dist2 p)) (by simpa using h)
  simpa [nearestIdx] using this

lemma nearestColor_mem (p : ColorQ) {palette : List Color}
    (h : palette ≠ []) : nearestColor p palette ∈ palette := by
  unfold nearestColor
  have hlt := nearestIdx_lt_length p h
  rw [List.getD_eq_getElem?_getD, List.getElem?_eq_getElem hlt]
  exact List.getElem_mem _

/-! ## Output conversion: `np.clip(img, 0, 255).astype(np.uint8)` -/

/-- Clamp one accumulator value to `[0, 255]` and truncate to an 8-bit
integer (the C-style float→uint8 cast truncates; after the clip the value
is nonnegative, so truncation is the floor). -/
def toByte (v : ℚ) : ℕ := (Int.floor (max 0 (min 255 v))).toNat

/-- `toByte` on each channel of a color value. -/
def toByte3 (v : ColorQ) : Color := (toByte v.1, toByte v.2.1, toByte v.2.2)

@[simp] lemma toByte_zero : toByte 0 = 0 := by decide
@[simp] lemma toByte_255 : toByte 255 = 255 := by decide

lemma toByte_natCast {n : ℕ} (h : n ≤ 255) : toByte (n : ℚ) = n := by
  unfold toByte
  rw [min_eq_right (by exact_mod_cast h), max_eq_right (by positivity)]
  simp

lemma toByte3_colorToQ {c : Color} (h : c.1 ≤ 255 ∧ c.2.1 ≤ 255 ∧ c.2.2 ≤ 255) :
    toByte3 (colorToQ c) = c := by
  obtain ⟨c1, c2, c3⟩ := c
  obtain ⟨h1, h2, h3⟩ := h
  simp [toByte3, colorToQ, toByte_natCast, h1, h2, h3]

/-- The final rasterization of a grayscale accumulator: the returned
`h × w` uint8 array, row by row. -/
def outputImage (hh ww : ℕ) (g : Img ℚ) : List (List ℕ) :=
  (List.range hh).map fun y => (List.range ww).map fun x => toByte (g y x)

/-- The final rasterization of a color accumulator. -/
def outputImageC (hh ww : ℕ) (g : Img ColorQ) : List (List Color) :=
  (List.range hh).map fun y => (List.range ww).map fun x => toByte3 (g y x)

/-- Read a pixel of a rasterized output (0 outside the raster). -/
def outGet (out : List (List ℕ)) (y x : ℕ) : ℕ := (out.getD y []).getD x 0

/-- Read a pixel of a rasterized color output. -/
def outGetC (out : List (List Color)) (y x : ℕ) : Color :=
  (out.getD y []).getD x (0, 0, 0)

lemma outGet_outputImage (hh ww : ℕ) (g : Img ℚ) {y x : ℕ}
    (hy : y < hh) (hx : x < ww) :
    outGet (outputImage hh ww g) y x = toByte (g y x) := by
  have h1 : (outputImage hh ww g).getD y [] =
      (List.range ww).map fun x => toByte (g y x) := by
    unfold outputImage
    rw [List.getD_eq_getElem?_getD, List.getElem?_map, List.getElem?_range hy]
    simp
  unfold outGet
  rw [h1, List.getD_eq_getElem?_getD, List.getElem?_map, List.getElem?_range hx]
  simp

lemma outGetC_outputImageC (hh ww : ℕ) (g : Img ColorQ) {y x : ℕ}
    (hy : y < hh) (hx : x < ww) :
    outGetC (outputImageC hh ww g) y x = toByte3 (g y x) := by
  have h1 : (outputImageC hh ww g).getD y [] =
      (List.range ww).map fun x => toByte3 (g y x) := by
    unfold outputImageC
    rw [List.getD_eq_getElem?_getD, List.getElem?_map, List.getElem?_range hy]
    simp
  unfold outGetC
  rw [h1, List.getD_eq_getElem?_getD, List.getElem?_map, List.getElem?_range hx]
  simp

/-! ## Floyd-Steinberg (`floyd_steinberg_dither`)

Each per-pixel step mirrors one iteration of the source's inner loop.
The source's nested bounds checks are flattened into one conjunction per
guarded `+=` (e.g. `if y + 1 < h: if x > 0: img[y+1, x-1] += ...` becomes
`addIf (y + 1 < hh ∧ 0 < x) (y+1) (x-1) ...`); the first add of the
source is the innermost application. -/

/-- Grayscale per-pixel body of `floyd_steinberg_dither`. -/
def fsStepG (dither_strength : ℚ) (hh ww : ℕ) (g : Img ℚ) (y x : ℕ) :
    Img ℚ :=
  let old_pixel := g y x
  let error := (old_pixel - grayQuant old_pixel) * dither_strength
  addIf (y + 1 < hh ∧ x + 1 < ww) (y + 1) (x + 1) (error * 1 / 16)
    (addIf (y + 1 < hh) (y + 1) x (error * 5 / 16)
      (addIf (y + 1 < hh ∧ 0 < x) (y + 1) (x - 1) (error * 3 / 16)
        (addIf (x + 1 < ww) y (x + 1) (error * 7 / 16)
          (upd g y x (grayQuant old_pixel)))))

/-- Color per-pixel body of `floyd_steinberg_dither`. -/
def fsStepC (dither_strength : ℚ) (palette : List Color) (hh ww : ℕ)
    (g : Img ColorQ) (y x : ℕ) : Img ColorQ :=
  let old_pixel := g y x
  let error := csmul (old_pixel - colorQuant palette old_pixel) dither_strength
  addIf (y + 1 < hh ∧ x + 1 < ww) (y + 1) (x + 1) (cdivs (csmul error 1) 16)
    (addIf (y + 1 < hh) (y + 1) x (cdivs (csmul error 5) 16)
      (addIf (y + 1 < hh ∧ 0 < x) (y + 1) (x - 1) (cdivs (csmul error 3) 16)
        (addIf (x + 1 < ww) y (x + 1) (cdivs (csmul error 7) 16)
          (upd g y x (colorQuant palette old_pixel)))))

/-- `floyd_steinberg_dither`, grayscale branch (`is_color=False`). -/
def floyd_steinberg_dither (hh ww : ℕ) (image : Img ℚ)
    (dither_strength : ℚ) : List (List ℕ) :=
  outputImage hh ww
    (scan (fun g p => fsStepG dither_strength hh ww g p.1 p.2) image
      (coords hh ww))

/-- `floyd_steinberg_dither`, color branch (`is_color=True`); a `none`
palette is replaced by the default 8-color palette, as in the source. -/
def floyd_steinberg_dither_color (hh ww : ℕ) (image : Img ColorQ)
    (dither_strength : ℚ) (palette : Option (List Color)) :
    List (List Color) :=
  let pal := palette.getD defaultPalette
  outputImageC hh ww
    (scan (fun g p => fsStepC dither_strength pal hh ww g p.1 p.2) image
      (coords hh ww))

/-! ## Atkinson (`atkinson_dither`) -/

/-- Grayscale per-pixel body of `atkinson_dither`.  The source divides the
scaled error by 8 once and then adds the plain `error` at each of the six
offsets. -/
def atkStepG (dither_strength : ℚ) (hh ww : ℕ) (g : Img ℚ) (y x : ℕ) :
    Img ℚ :=
  let old_pixel := g y x
  let error := (old_pixel - grayQuant old_pixel) * dither_strength / 8
  addIf (y + 2 < hh) (y + 2) x error
    (addIf (y + 1 < hh ∧ x + 1 < ww) (y + 1) (x + 1) error
      (addIf (y + 1 < hh) (y + 1) x error
        (addIf (y + 1 < hh ∧ 0 < x) (y + 1) (x - 1) error
          (addIf (x + 2 < ww) y (x + 2) error
            (addIf (x + 1 < ww) y (x + 1) error
              (upd g y x (grayQuant old_pixel)))))))

/-- Color per-pixel body of `atkinson_dither`. -/
def atkStepC (dither_strength : ℚ) (palette : List Color) (hh ww : ℕ)
    (g : Img ColorQ) (y x : ℕ) : Img ColorQ :=
  let old_pixel := g y x
  let error := cdivs (csmul (old_pixel - colorQuant palette old_pixel)
    dither_strength) 8
  addIf (y + 2 < hh) (y + 2) x error
    (addIf (y + 1 < hh ∧ x + 1 < ww) (y + 1) (x + 1) error
      (addIf (y + 1 < hh) (y + 1) x error
        (addIf (y + 1 < hh ∧ 0 < x) (y + 1) (x - 1) error
          (addIf (x + 2 < ww) y (x + 2) error
            (addIf (x + 1 < ww) y (x + 1) error
              (upd g y x (colorQuant palette old_pixel)))))))

/-- `atkinson_dither`, grayscale branch. -/
def atkinson_dither (hh ww : ℕ) (image : Img ℚ) (dither_strength : ℚ) :
    List (List ℕ) :=
  outputImage hh ww
    (scan (fun g p => atkStepG dither_strength hh ww g p.1 p.2) image
      (coords hh ww))

/-- `atkinson_dither`, color branch. -/
def atkinson_dither_color (hh ww : ℕ) (image : Img ColorQ)
    (dither_strength : ℚ) (palette : Option (List Color)) :
    List (List Color) :=
  let pal := palette.getD defaultPalette
  outputImageC hh ww
    (scan (fun g p => atkStepC dither_strength pal hh ww g p.1 p.2) image
      (coords hh ww))

/-! ## Jarvis-Judice-Ninke (`jarvis_judice_ninke_dither`) -/

/-- Grayscale per-pixel body of `jarvis_judice_ninke_dither`. -/
def jjnStepG (dither_strength : ℚ) (hh ww : ℕ) (g : Img ℚ) (y x : ℕ) :
    Img ℚ :=
  let old_pixel := g y x
  let error := (old_pixel - grayQuant old_pixel) * dither_strength
  addIf (y + 2 < hh ∧ x + 2 < ww) (y + 2) (x + 2) (error * 1 / 48)
    (addIf (y + 2 < hh ∧ x + 1 < ww) (y + 2) (x + 1) (error * 3 / 48)
      (addIf (y + 2 < hh) (y + 2) x (error * 5 / 48)
        (addIf (y + 2 < hh ∧ 0 < x) (y + 2) (x - 1) (error * 3 / 48)
          (addIf (y + 2 < hh ∧ 1 < x) (y + 2) (x - 2) (error * 1 / 48)
            (addIf (y + 1 < hh ∧ x + 2 < ww) (y + 1) (x + 2) (error * 3 / 48)
              (addIf (y + 1 < hh ∧ x + 1 < ww) (y + 1) (x + 1) (error * 5 / 48)
                (addIf (y + 1 < hh) (y + 1) x (error * 7 / 48)
                  (addIf (y + 1 < hh ∧ 0 < x) (y + 1) (x - 1) (error * 5 / 48)
                    (addIf (y + 1 < hh ∧ 1 < x) (y + 1) (x - 2) (error * 3 / 48)
                      (addIf (x + 2 < ww) y (x + 2) (error * 5 / 48)
                        (addIf (x + 1 < ww) y (x + 1) (error * 7 / 48)
                          (upd g y x (grayQuant old_pixel)))))))))))))

/-- Color per-pixel body of `jarvis_judice_ninke_dither`. -/
def jjnStepC (dither_strength : ℚ) (palette : List Color) (hh ww : ℕ)
    (g : Img ColorQ) (y x : ℕ) : Img ColorQ :=
  let old_pixel := g y x
  let error := csmul (old_pixel - colorQuant palette old_pixel) dither_strength
  addIf (y + 2 < hh ∧ x + 2 < ww) (y + 2) (x + 2) (cdivs (csmul error 1) 48)
    (addIf (y + 2 < hh ∧ x + 1 < ww) (y + 2) (x + 1) (cdivs (csmul error 3) 48)
      (addIf (y + 2 < hh) (y + 2) x (cdivs (csmul error 5) 48)
        (addIf (y + 2 < hh ∧ 0 < x) (y + 2) (x - 1) (cdivs (csmul error 3) 48)
          (addIf (y + 2 < hh ∧ 1 < x) (y + 2) (x - 2) (cdivs (csmul error 1) 48)
            (addIf (y + 1 < hh ∧ x + 2 < ww) (y + 1) (x + 2) (cdivs (csmul error 3) 48)
              (addIf (y + 1 < hh ∧ x + 1 < ww) (y + 1) (x + 1) (cdivs (csmul error 5) 48)
                (addIf (y + 1 < hh) (y + 1) x (cdivs (csmul error 7) 48)
                  (addIf (y + 1 < hh ∧ 0 < x) (y + 1) (x - 1) (cdivs (csmul error 5) 48)
                    (addIf (y + 1 < hh ∧ 1 < x) (y + 1) (x - 2) (cdivs (csmul error 3) 48)
                      (addIf (x + 2 < ww) y (x + 2) (cdivs (csmul error 5) 48)
                        (addIf (x + 1 < ww) y (x + 1) (cdivs (csmul error 7) 48)
                          (upd g y x (colorQuant palette old_pixel)))))))))))))

/-- `jarvis_judice_ninke_dither`, grayscale branch. -/
def jarvis_judice_ninke_dither (hh ww : ℕ) (image : Img ℚ)
    (dither_strength : ℚ) : List (List ℕ) :=
  outputImage hh ww
    (scan (fun g p => jjnStepG dither_strength hh ww g p.1 p.2) image
      (coords hh ww))

/-- `jarvis_judice_ninke_dither`, color branch. -/
def jarvis_judice_ninke_dither_color (hh ww : ℕ) (image : Img ColorQ)
    (dither_strength : ℚ) (palette : Option (List Color)) :
    List (List Color) :=
  let pal := palette.getD defaultPalette
  outputImageC hh ww
    (scan (fun g p => jjnStepC dither_strength pal hh ww g p.1 p.2) image
      (coords hh ww))

/-! ## Ordered/Bayer dithering (`ordered_dither`) -/

/-- The 2×2 Bayer matrix of the source: `np.array([[0, 2], [3, 1]]) / 4`. -/
def bayer2 : List (List ℚ) :=
  ([[0, 2], [3, 1]] : List (List ℚ)).map fun r => r.map fun v => v / 4

/-- The 4×4 Bayer matrix of the source, divided by 16. -/
def bayer4 : List (List ℚ) :=
  ([[0, 8, 2, 10],
    [12, 4, 14, 6],
    [3, 11, 1, 9],
    [15, 7, 13, 5]] : List (List ℚ)).map fun r => r.map fun v => v / 16

/-- The 8×8 Bayer matrix of the source, divided by 64. -/
def bayer8 : List (List ℚ) :=
  ([[0, 32, 8, 40, 2, 34, 10, 42],
    [48, 16, 56, 24, 50, 18, 58, 26],
    [12, 44, 4, 36, 14, 46, 6, 38],
    [60, 28, 52, 20, 62, 30, 54, 22],
    [3, 35, 11, 43, 1, 33, 9, 41],
    [51, 19, 59, 27, 49, 17, 57, 25],
    [15, 47, 7, 39, 13, 45, 5, 37],
    [63, 31, 55, 23, 61, 29, 53, 21]] : List (List ℚ)).map
    fun r => r.map fun v => v / 64

/-- Matrix selection of the source: `matrix_size == 2`, `elif == 4`,
`else` the 8×8 matrix. -/
def bayerFor (matrix_size : ℕ) : List (List ℚ) :=
  if matrix_size = 2 then bayer2
  else if matrix_size = 4 then bayer4
  else bayer8

/-- 2-D matrix read `m[i][j]` (0 outside; in the claims' use the indices
are always in range). -/
def mget (m : List (List ℚ)) (i j : ℕ) : ℚ := (m.getD i []).getD j 0

/-- Grayscale per-pixel body of `ordered_dither`. -/
def orderedStepG (matrix_size : ℕ) (g : Img ℚ) (y x : ℕ) : Img ℚ :=
  let threshold :=
    mget (bayerFor matrix_size) (y % matrix_size) (x % matrix_size) * 255
  upd g y x (if g y x > threshold then 255 else 0)

/-- Color per-pixel body of `ordered_dither`: a 2-entry palette compares
the channel mean (`np.mean`) against the Bayer threshold; any other
palette length falls back to nearest-color matching. -/
def orderedStepC (matrix_size : ℕ) (palette : List Color) (g : Img ColorQ)
    (y x : ℕ) : Img ColorQ :=
  let threshold :=
    mget (bayerFor matrix_size) (y % matrix_size) (x % matrix_size) * 255
  let old_pixel := g y x
  upd g y x
    (if palette.length = 2 then
      (if (old_pixel.1 + old_pixel.2.1 + old_pixel.2.2) / 3 > threshold then
        colorToQ (palette.getD 1 (0, 0, 0))
      else colorToQ (palette.getD 0 (0, 0, 0)))
    else colorQuant palette old_pixel)

/-- `ordered_dither`, grayscale branch. -/
def ordered_dither (hh ww : ℕ) (image : Img ℚ) (matrix_size : ℕ) :
    List (List ℕ) :=
  outputImage hh ww
    (scan (fun g p => orderedStepG matrix_size g p.1 p.2) image
      (coords hh ww))

/-- `ordered_dither`, color branch. -/
def ordered_dither_color (hh ww : ℕ) (image : Img ColorQ)
    (matrix_size : ℕ) (palette : Option (List Color)) : List (List Color) :=
  let pal := palette.getD defaultPalette
  outputImageC hh ww
    (scan (fun g p => orderedStepC matrix_size pal g p.1 p.2) image
      (coords hh ww))

/-! ## Random dithering (`random_dither`)

The fresh per-pixel draws of `random.uniform(-threshold_variance,
threshold_variance)` (resp. the 3-component `np.random.uniform` vector)
are modelled as an injected noise image, so every theorem below holds for
every possible sequence of draws. -/

/-- One channel clamp `np.clip(·, 0, 255)`. -/
def clipQ (v : ℚ) : ℚ := max 0 (min 255 v)

/-- Componentwise `np.clip(·, 0, 255)` on a color. -/
def clip3 (v : ColorQ) : ColorQ := (clipQ v.1, clipQ v.2.1, clipQ v.2.2)

/-- Grayscale per-pixel body of `random_dither`:
`threshold = 128 + random.uniform(-variance, variance)`. -/
def randomStepG (noise : Img ℚ) (g : Img ℚ) (y x : ℕ) : Img ℚ :=
  let threshold := 128 + noise y x
  upd g y x (if g y x > threshold then 255 else 0)

/-- Color per-pixel body of `random_dither`: add the noise vector, clip,
then nearest-palette match. -/
def randomStepC (noise : Img ColorQ) (palette : List Color)
    (g : Img ColorQ) (y x : ℕ) : Img ColorQ :=
  let noisy_pixel := clip3 (g y x + noise y x)
  upd g y x (colorQuant palette noisy_pixel)

/-- `random_dither`, grayscale branch. -/
def random_dither (hh ww : ℕ) (image : Img ℚ) (noise : Img ℚ) :
    List (List ℕ) :=
  outputImage hh ww
    (scan (fun g p => randomStepG noise g p.1 p.2) image (coords hh ww))

/-- `random_dither`, color branch. -/
def random_dither_color (hh ww : ℕ) (image : Img ColorQ)
    (noise : Img ColorQ) (palette : Option (List Color)) :
    List (List Color) :=
  let pal := palette.getD defaultPalette
  outputImageC hh ww
    (scan (fun g p => randomStepC noise pal g p.1 p.2) image (coords hh ww))

/-! ## Dispatcher (`apply_dithering`) -/

/-- `apply_dithering`, grayscale (`is_color=False`): route the method name
to the matching engine, or raise `ValueError` (modelled as `Except.error`)
on an unknown name. -/
def apply_dithering (hh ww : ℕ) (image : Img ℚ) (method : String)
    (dither_strength : ℚ) (matrix_size : ℕ) (noise : Img ℚ) :
    Except String (List (List ℕ)) :=
  if method = "floyd_steinberg" then
    Except.ok (floyd_steinberg_dither hh ww image dither_strength)
  else if method = "atkinson" then
    Except.ok (atkinson_dither hh ww image dither_strength)
  else if method = "jarvis_judice_ninke" then
    Except.ok (jarvis_judice_ninke_dither hh ww image dither_strength)
  else if method = "ordered" then
    Except.ok (ordered_dither hh ww image matrix_size)
  else if method = "random" then
    Except.ok (random_dither hh ww image noise)
  else Except.error ("Unknown dithering method: " ++ method)

/-- `apply_dithering`, color (`is_color=True`). -/
def apply_dithering_color (hh ww : ℕ) (image : Img ColorQ) (method : String)
    (dither_strength : ℚ) (matrix_size : ℕ) (noise : Img ColorQ)
    (palette : Option (List Color)) : Except String (List (List Color)) :=
  if method = "floyd_steinberg" then
    Except.ok (floyd_steinberg_dither_color hh ww image dither_strength palette)
  else if method = "atkinson" then
    Except.ok (atkinson_dither_color hh ww image dither_strength palette)
  else if method = "jarvis_judice_ninke" then
    Except.ok (jarvis_judice_ninke_dither_color hh ww image dither_strength palette)
  else if method = "ordered" then
    Except.ok (ordered_dither_color hh ww image matrix_size palette)
  else if method = "random" then
    Except.ok (random_dither_color hh ww image noise palette)
  else Except.error ("Unknown dithering method: " ++ method)

/-! ## The generic error-diffusion engine

Modelled from the spec (§4.2): a shared scan-and-propagate algorithm
parameterized by a kernel table of `(dy, dx, weight)` offsets and a
per-pixel quantizer; `error × weight` is distributed to each offset,
skipping offsets that fall outside the raster bounds.  This is the
reference side of the refinement claims about the kernels. -/

/-- One kernel entry `(dy, dx, weight)`. -/
structure KEntry where
  dy : ℕ
  dx : ℤ
  wt : ℚ
deriving DecidableEq

/-- Spec §4.2 step 5: distribute `error × weight` to each kernel offset,
silently skipping out-of-bounds targets. -/
def distribute {α : Type} [Add α] (scale : α → ℚ → α) (hh ww : ℕ)
    (y x : ℕ) (err : α) : List KEntry → Img α → Img α
  | [], g => g
  | k :: rest, g =>
    distribute scale hh ww y x err rest
      (addIf (y + k.dy < hh ∧ 0 ≤ (x : ℤ) + k.dx ∧ (x : ℤ) + k.dx < (ww : ℤ))
        (y + k.dy) ((x : ℤ) + k.dx).toNat (scale err k.wt) g)

/-- Spec §4.2 steps 1-5 for one pixel: quantize, write back, scale the
error by `dither_strength`, distribute along the kernel. -/
def edStep {α : Type} [Add α] [Sub α] (scale : α → ℚ → α)
    (quantize : α → α) (kernel : List KEntry) (dither_strength : ℚ)
    (hh ww : ℕ) (g : Img α) (y x : ℕ) : Img α :=
  let old := g y x
  let err := scale (old - quantize old) dither_strength
  distribute scale hh ww y x err kernel (upd g y x (quantize old))

/-- The full spec §4.2 algorithm in grayscale mode: row-major scan of
`edStep` over a float accumulator initialized from the input, then clamp
to `[0, 255]` and convert to 8-bit integers. -/
def edDitherGray (kernel : List KEntry) (dither_strength : ℚ)
    (hh ww : ℕ) (image : Img ℚ) : List (List ℕ) :=
  outputImage hh ww
    (scan (fun g p => edStep (· * ·) grayQuant kernel dither_strength hh ww
      g p.1 p.2) image (coords hh ww))

/-- The full spec §4.2 algorithm in color mode. -/
def edDitherColor (kernel : List KEntry) (dither_strength : ℚ)
    (hh ww : ℕ) (image : Img ColorQ) (palette : Option (List Color)) :
    List (List Color) :=
  let pal := palette.getD defaultPalette
  outputImageC hh ww
    (scan (fun g p => edStep csmul (colorQuant pal) kernel dither_strength
      hh ww g p.1 p.2) image (coords hh ww))

/-- The Floyd-Steinberg kernel of spec §4.2, in the order the source
applies the four adds. -/
def fsKernel : List KEntry :=
  [⟨0, 1, 7/16⟩, ⟨1, -1, 3/16⟩, ⟨1, 0, 5/16⟩, ⟨1, 1, 1/16⟩]

/-- The Atkinson kernel of spec §4.2: six offsets, each weight `1/8`. -/
def atkKernel : List KEntry :=
  [⟨0, 1, 1/8⟩, ⟨0, 2, 1/8⟩, ⟨1, -1, 1/8⟩, ⟨1, 0, 1/8⟩, ⟨1, 1, 1/8⟩,
   ⟨2, 0, 1/8⟩]

/-- A kernel entry pointing strictly forward in row-major order. -/
def forwardEntry (k : KEntry) : Prop := 0 < k.dy ∨ (k.dy = 0 ∧ 0 < k.dx)

lemma distribute_apply_notAfter {α : Type} [Add α] (scale : α → ℚ → α)
    (hh ww y x : ℕ) (err : α) (kernel : List KEntry)
    (hk : ∀ k ∈ kernel, forwardEntry k) {a b : ℕ}
    (hab : a < y ∨ (a = y ∧ b ≤ x)) :
    ∀ g : Img α, distribute scale hh ww y x err kernel g a b = g a b := by
  induction kernel with
  | nil => intro g; rfl
  | cons k rest ih =>
    intro g
    rw [distribute, ih fun k' hk' => hk k' (List.mem_cons_of_mem _ hk')]
    refine addIf_apply_ne _ _ _ _ _ ?_
    have hf := hk k (List.mem_cons_self _ _)
    unfold forwardEntry at hf
    omega

lemma edStep_before {α : Type} [Add α] [Sub α] (scale : α → ℚ → α)
    (quantize : α → α) (kernel : List KEntry)
    (hk : ∀ k ∈ kernel, forwardEntry k) (s : ℚ) (hh ww : ℕ) (g : Img α)
    (y x : ℕ) {a b : ℕ} (hab : a < y ∨ (a = y ∧ b < x)) :
    edStep scale quantize kernel s hh ww g y x a b = g a b := by
  simp only [edStep]
  rw [distribute_apply_notAfter _ _ _ _ _ _ _ hk (by omega)]
  exact upd_apply_ne _ _ _ _ (by omega)

lemma edStep_self {α : Type} [Add α] [Sub α] (scale : α → ℚ → α)
    (quantize : α → α) (kernel : List KEntry)
    (hk : ∀ k ∈ kernel, forwardEntry k) (s : ℚ) (hh ww : ℕ) (g : Img α)
    (y x : ℕ) :
    edStep scale quantize kernel s hh ww g y x y x = quantize (g y x) := by
  simp only [edStep]
  rw [distribute_apply_notAfter _ _ _ _ _ _ _ hk (Or.inr ⟨rfl, le_refl x⟩)]
  exact upd_apply_self _ _ _ _

/-! ## Locality and self-value of the source's per-pixel steps -/

lemma fsStepG_before (s : ℚ) (hh ww : ℕ) (g : Img ℚ) (y x : ℕ) {a b : ℕ}
    (hab : a < y ∨ (a = y ∧ b < x)) : fsStepG s hh ww g y x a b = g a b := by
  simp only [fsStepG]
  rw [addIf_apply_ne, addIf_apply_ne, addIf_apply_ne, addIf_apply_ne,
    upd_apply_ne] <;> omega

lemma fsStepG_self (s : ℚ) (hh ww : ℕ) (g : Img ℚ) (y x : ℕ) :
    fsStepG s hh ww g y x y x = grayQuant (g y x) := by
  simp only [fsStepG]
  rw [addIf_apply_ne, addIf_apply_ne, addIf_apply_ne, addIf_apply_ne,
    upd_apply_self] <;> omega

lemma fsStepC_before (s : ℚ) (pal : List Color) (hh ww : ℕ) (g : Img ColorQ)
    (y x : ℕ) {a b : ℕ} (hab : a < y ∨ (a = y ∧ b < x)) :
    fsStepC s pal hh ww g y x a b = g a b := by
  simp only [fsStepC]
  rw [addIf_apply_ne, addIf_apply_ne, addIf_apply_ne, addIf_apply_ne,
    upd_apply_ne] <;> omega

lemma fsStepC_self (s : ℚ) (pal : List Color) (hh ww : ℕ) (g : Img ColorQ)
    (y x : ℕ) : fsStepC s pal hh ww g y x y x = colorQuant pal (g y x) := by
  simp only [fsStepC]
  rw [addIf_apply_ne, addIf_apply_ne, addIf_apply_ne, addIf_apply_ne,
    upd_apply_self] <;> omega

lemma atkStepG_before (s : ℚ) (hh ww : ℕ) (g : Img ℚ) (y x : ℕ) {a b : ℕ}
    (hab : a < y ∨ (a = y ∧ b < x)) : atkStepG s hh ww g y x a b = g a b := by
  simp only [atkStepG]
  rw [addIf_apply_ne, addIf_apply_ne, addIf_apply_ne, addIf_apply_ne,
    addIf_apply_ne, addIf_apply_ne, upd_apply_ne] <;> omega

lemma atkStepG_self (s : ℚ) (hh ww : ℕ) (g : Img ℚ) (y x : ℕ) :
    atkStepG s hh ww g y x y x = grayQuant (g y x) := by
  simp only [atkStepG]
  rw [addIf_apply_ne, addIf_apply_ne, addIf_apply_ne, addIf_apply_ne,
    addIf_apply_ne, addIf_apply_ne, upd_apply_self] <;> omega

lemma atkStepC_before (s : ℚ) (pal : List Color) (hh ww : ℕ)
    (g : Img ColorQ) (y x : ℕ) {a b : ℕ}
    (hab : a < y ∨ (a = y ∧ b < x)) :
    atkStepC s pal hh ww g y x a b = g a b := by
  simp only [atkStepC]
  rw [addIf_apply_ne, addIf_apply_ne, addIf_apply_ne, addIf_apply_ne,
    addIf_apply_ne, addIf_apply_ne, upd_apply_ne] <;> omega

lemma atkStepC_self (s : ℚ) (pal : List Color) (hh ww : ℕ)
    (g : Img ColorQ) (y x : ℕ) :
    atkStepC s pal hh ww g y x y x = colorQuant pal (g y x) := by
  simp only [atkStepC]
  rw [addIf_apply_ne, addIf_apply_ne, addIf_apply_ne, addIf_apply_ne,
    addIf_apply_ne, addIf_apply_ne, upd_apply_self] <;> omega

lemma jjnStepG_before (s : ℚ) (hh ww : ℕ) (g : Img ℚ) (y x : ℕ) {a b : ℕ}
    (hab : a < y ∨ (a = y ∧ b < x)) : jjnStepG s hh ww g y x a b = g a b := by
  simp only [jjnStepG]
  rw [addIf_apply_ne, addIf_apply_ne, addIf_apply_ne, addIf_apply_ne,
    addIf_apply_ne, addIf_apply_ne, addIf_apply_ne, addIf_apply_ne,
    addIf_apply_ne, addIf_apply_ne, addIf_apply_ne, addIf_apply_ne,
    upd_apply_ne] <;> omega

lemma jjnStepG_self (s : ℚ) (hh ww : ℕ) (g : Img ℚ) (y x : ℕ) :
    jjnStepG s hh ww g y x y x = grayQuant (g y x) := by
  simp only [jjnStepG]
  rw [addIf_apply_ne, addIf_apply_ne, addIf_apply_ne, addIf_apply_ne,
    addIf_apply_ne, addIf_apply_ne, addIf_apply_ne, addIf_apply_ne,
    addIf_apply_ne, addIf_apply_ne, addIf_apply_ne, addIf_apply_ne,
    upd_apply_self] <;> omega

lemma jjnStepC_before (s : ℚ) (pal : List Color) (hh ww : ℕ)
    (g : Img ColorQ) (y x : ℕ) {a b : ℕ}
    (hab : a < y ∨ (a = y ∧ b < x)) :
    jjnStepC s pal hh ww g y x a b = g a b := by
  simp only [jjnStepC]
  rw [addIf_apply_ne, addIf_apply_ne, addIf_apply_ne, addIf_apply_ne,
    addIf_apply_ne, addIf_apply_ne, addIf_apply_ne, addIf_apply_ne,
    addIf_apply_ne, addIf_apply_ne, addIf_apply_ne, addIf_apply_ne,
    upd_apply_ne] <;> omega

lemma jjnStepC_self (s : ℚ) (pal : List Color) (hh ww : ℕ)
    (g : Img ColorQ) (y x : ℕ) :
    jjnStepC s pal hh ww g y x y x = colorQuant pal (g y x) := by
  simp only [jjnStepC]
  rw [addIf_apply_ne, addIf_apply_ne, addIf_apply_ne, addIf_apply_ne,
    addIf_apply_ne, addIf_apply_ne, addIf_apply_ne, addIf_apply_ne,
    addIf_apply_ne, addIf_apply_ne, addIf_apply_ne, addIf_apply_ne,
    upd_apply_self] <;> omega

lemma orderedStepG_only (ms : ℕ) (g : Img ℚ) (y x : ℕ) {a b : ℕ}
    (hab : ¬(a = y ∧ b = x)) : orderedStepG ms g y x a b = g a b := by
  simp only [orderedStepG]
  exact upd_apply_ne _ _ _ _ hab

lemma orderedStepG_self (ms : ℕ) (g : Img ℚ) (y x : ℕ) :
    orderedStepG ms g y x y x =
      (if g y x > mget (bayerFor ms) (y % ms) (x % ms) * 255 then 255 else 0) := by
  simp only [orderedStepG]
  exact upd_apply_self _ _ _ _

lemma orderedStepC_only (ms : ℕ) (pal : List Color) (g : Img ColorQ)
    (y x : ℕ) {a b : ℕ} (hab : ¬(a = y ∧ b = x)) :
    orderedStepC ms pal g y x a b = g a b := by
  simp only [orderedStepC]
  exact upd_apply_ne _ _ _ _ hab

lemma orderedStepC_self (ms : ℕ) (pal : List Color) (g : Img ColorQ)
    (y x : ℕ) :
    orderedStepC ms pal g y x y x =
      (if pal.length = 2 then
        (if ((g y x).1 + (g y x).2.1 + (g y x).2.2) / 3 >
            mget (bayerFor ms) (y % ms) (x % ms) * 255 then
          colorToQ (pal.getD 1 (0, 0, 0))
        else colorToQ (pal.getD 0 (0, 0, 0)))
      else colorQuant pal (g y x)) := by
  simp only [orderedStepC]
  exact upd_apply_self _ _ _ _

lemma randomStepG_only (noise : Img ℚ) (g : Img ℚ) (y x : ℕ) {a b : ℕ}
    (hab : ¬(a = y ∧ b = x)) : randomStepG noise g y x a b = g a b := by
  simp only [randomStepG]
  exact upd_apply_ne _ _ _ _ hab

lemma randomStepG_self (noise : Img ℚ) (g : Img ℚ) (y x : ℕ) :
    randomStepG noise g y x y x =
      (if g y x > 128 + noise y x then 255 else 0) := by
  simp only [randomStepG]
  exact upd_apply_self _ _ _ _

lemma randomStepC_only (noise : Img ColorQ) (pal : List Color)
    (g : Img ColorQ) (y x : ℕ) {a b : ℕ} (hab : ¬(a = y ∧ b = x)) :
    randomStepC noise pal g y x a b = g a b := by
  simp only [randomStepC]
  exact upd_apply_ne _ _ _ _ hab

lemma randomStepC_self (noise : Img ColorQ) (pal : List Color)
    (g : Img ColorQ) (y x : ℕ) :
    randomStepC noise pal g y x y x =
      colorQuant pal (clip3 (g y x + noise y x)) := by
  simp only [randomStepC]
  exact upd_apply_self _ _ _ _

/-! ## Palette closure -/

/-- Every pixel of a grayscale output raster is 0 or 255. -/
def pix01 (out : List (List ℕ)) : Prop :=
  ∀ row ∈ out, ∀ v ∈ row, v = 0 ∨ v = 255

/-- Every pixel of a color output raster is an entry of the palette. -/
def pixPal (out : List (List Color)) (pal : List Color) : Prop :=
  ∀ row ∈ out, ∀ v ∈ row, v ∈ pal

/-- Channel bounds of a well-formed palette (each channel ≤ 255). -/
def palBounded (pal : List Color) : Prop :=
  ∀ c ∈ pal, c.1 ≤ 255 ∧ c.2.1 ≤ 255 ∧ c.2.2 ≤ 255

instance (pal : List Color) : Decidable (palBounded pal) := by
  unfold palBounded
  infer_instance

lemma pix01_outputImage (hh ww : ℕ) (g : Img ℚ)
    (h : ∀ y x, y < hh → x < ww → g y x = 0 ∨ g y x = 255) :
    pix01 (outputImage hh ww g) := by
  intro row hrow v hv
  simp only [outputImage, List.mem_map, List.mem_range] at hrow
  obtain ⟨y, hy, rfl⟩ := hrow
  simp only [List.mem_map, List.mem_range] at hv
  obtain ⟨x, hx, rfl⟩ := hv
  rcases h y x hy hx with h0 | h0 <;> rw [h0] <;> simp

lemma pixPal_outputImageC (hh ww : ℕ) (g : Img ColorQ) (pal : List Color)
    (hbd : palBounded pal)
    (h : ∀ y x, y < hh → x < ww → ∃ c ∈ pal, g y x = colorToQ c) :
    pixPal (outputImageC hh ww g) pal := by
  intro row hrow v hv
  simp only [outputImageC, List.mem_map, List.mem_range] at hrow
  obtain ⟨y, hy, rfl⟩ := hrow
  simp only [List.mem_map, List.mem_range] at hv
  obtain ⟨x, hx, rfl⟩ := hv
  obtain ⟨c, hc, hgc⟩ := h y x hy hx
  rw [hgc, toByte3_colorToQ (hbd c hc)]
  exact hc

lemma colorQuant_mem {pal : List Color} (hne : pal ≠ []) (v : ColorQ) :
    ∃ c ∈ pal, colorQuant pal v = colorToQ c :=
  ⟨nearestColor v pal, nearestColor_mem v hne, rfl⟩

lemma getD_mem {β : Type} {l : List β} {i : ℕ} (d : β) (hi : i < l.length) :
    l.getD i d ∈ l := by
  rw [List.getD_eq_getElem?_getD, List.getElem?_eq_getElem hi]
  exact List.getElem_mem hi

/-- Generic grayscale closure: a scan whose steps touch only pixels at or
after their own position and write `0`/`255` at their own pixel produces
a pure black/white raster. -/
lemma pix01_scan (S : Img ℚ → ℕ × ℕ → Img ℚ) (hh ww : ℕ) (image : Img ℚ)
    (hloc : ∀ g (p q : ℕ × ℕ), rmLt q p → S g p q.1 q.2 = g q.1 q.2)
    (hself : ∀ g (p : ℕ × ℕ), p ∈ coords hh ww →
      S g p p.1 p.2 = 0 ∨ S g p p.1 p.2 = 255) :
    pix01 (outputImage hh ww (scan S image (coords hh ww))) := by
  apply pix01_outputImage
  intro y x hy hx
  exact scan_closure (fun v => v = 0 ∨ v = 255) S (coords hh ww)
    (coords_pairwise hh ww) hloc hself image (y, x)
    (mem_coords.mpr ⟨hy, hx⟩)

/-- Generic color closure. -/
lemma pixPal_scan (S : Img ColorQ → ℕ × ℕ → Img ColorQ) (hh ww : ℕ)
    (image : Img ColorQ) (pal : List Color) (hbd : palBounded pal)
    (hloc : ∀ g (p q : ℕ × ℕ), rmLt q p → S g p q.1 q.2 = g q.1 q.2)
    (hself : ∀ g (p : ℕ × ℕ), p ∈ coords hh ww →
      ∃ c ∈ pal, S g p p.1 p.2 = colorToQ c) :
    pixPal (outputImageC hh ww (scan S image (coords hh ww))) pal := by
  apply pixPal_outputImageC _ _ _ _ hbd
  intro y x hy hx
  exact scan_closure (fun v => ∃ c ∈ pal, v = colorToQ c) S (coords hh ww)
    (coords_pairwise hh ww) hloc hself image (y, x)
    (mem_coords.mpr ⟨hy, hx⟩)

lemma fs_pix01 (hh ww : ℕ) (image : Img ℚ) (s : ℚ) :
    pix01 (floyd_steinberg_dither hh ww image s) :=
  pix01_scan _ hh ww image
    (fun g p q hq => fsStepG_before s hh ww g p.1 p.2 hq)
    (fun g p _ => by rw [fsStepG_self]; exact grayQuant_mem _)

lemma atk_pix01 (hh ww : ℕ) (image : Img ℚ) (s : ℚ) :
    pix01 (atkinson_dither hh ww image s) :=
  pix01_scan _ hh ww image
    (fun g p q hq => atkStepG_before s hh ww g p.1 p.2 hq)
    (fun g p _ => by rw [atkStepG_self]; exact grayQuant_mem _)

lemma jjn_pix01 (hh ww : ℕ) (image : Img ℚ) (s : ℚ) :
    pix01 (jarvis_judice_ninke_dither hh ww image s) :=
  pix01_scan _ hh ww image
    (fun g p q hq => jjnStepG_before s hh ww g p.1 p.2 hq)
    (fun g p _ => by rw [jjnStepG_self]; exact grayQuant_mem _)

lemma ordered_pix01 (hh ww : ℕ) (image : Img ℚ) (ms : ℕ) :
    pix01 (ordered_dither hh ww image ms) :=
  pix01_scan _ hh ww image
    (fun g p q hq => orderedStepG_only ms g p.1 p.2
      (by unfold rmLt at hq; omega))
    (fun g p _ => by rw [orderedStepG_self]; split_ifs <;> simp)

lemma random_pix01 (hh ww : ℕ) (image : Img ℚ) (noise : Img ℚ) :
    pix01 (random_dither hh ww image noise) :=
  pix01_scan _ hh ww image
    (fun g p q hq => randomStepG_only noise g p.1 p.2
      (by unfold rmLt at hq; omega))
    (fun g p _ => by rw [randomStepG_self]; split_ifs <;> simp)

lemma fs_pixPal (hh ww : ℕ) (image : Img ColorQ) (s : ℚ)
    (palette : Option (List Color))
    (hne : palette.getD defaultPalette ≠ [])
    (hbd : palBounded (palette.getD defaultPalette)) :
    pixPal (floyd_steinberg_dither_color hh ww image s palette)
      (palette.getD defaultPalette) :=
  pixPal_scan _ hh ww image _ hbd
    (fun g p q hq => fsStepC_before s _ hh ww g p.1 p.2 hq)
    (fun g p _ => by rw [fsStepC_self]; exact colorQuant_mem hne _)

lemma atk_pixPal (hh ww : ℕ) (image : Img ColorQ) (s : ℚ)
    (palette : Option (List Color))
    (hne : palette.getD defaultPalette ≠ [])
    (hbd : palBounded (palette.getD defaultPalette)) :
    pixPal (atkinson_dither_color hh ww image s palette)
      (palette.getD defaultPalette) :=
  pixPal_scan _ hh ww image _ hbd
    (fun g p q hq => atkStepC_before s _ hh ww g p.1 p.2 hq)
    (fun g p _ => by rw [atkStepC_self]; exact colorQuant_mem hne _)

lemma jjn_pixPal (hh ww : ℕ) (image : Img ColorQ) (s : ℚ)
    (palette : Option (List Color))
    (hne : palette.getD defaultPalette ≠ [])
    (hbd : palBounded (palette.getD defaultPalette)) :
    pixPal (jarvis_judice_ninke_dither_color hh ww image s palette)
      (palette.getD defaultPalette) :=
  pixPal_scan _ hh ww image _ hbd
    (fun g p q hq => jjnStepC_before s _ hh ww g p.1 p.2 hq)
    (fun g p _ => by rw [jjnStepC_self]; exact colorQuant_mem hne _)

lemma orderedStepC_self_mem (ms : ℕ) {pal : List Color} (hne : pal ≠ [])
    (g : Img ColorQ) (y x : ℕ) :
    ∃ c ∈ pal, orderedStepC ms pal g y x y x = colorToQ c := by
  rw [orderedStepC_self]
  have hlen : 0 < pal.length := List.length_pos.mpr hne
  split_ifs with h2 hgt
  · exact ⟨pal.getD 1 (0, 0, 0), getD_mem _ (by omega), rfl⟩
  · exact ⟨pal.getD 0 (0, 0, 0), getD_mem _ hlen, rfl⟩
  · exact colorQuant_mem hne _

lemma ordered_pixPal (hh ww : ℕ) (image : Img ColorQ) (ms : ℕ)
    (palette : Option (List Color))
    (hne : palette.getD defaultPalette ≠ [])
    (hbd : palBounded (palette.getD defaultPalette)) :
    pixPal (ordered_dither_color hh ww image ms palette)
      (palette.getD defaultPalette) :=
  pixPal_scan _ hh ww image _ hbd
    (fun g p q hq => orderedStepC_only ms _ g p.1 p.2
      (by unfold rmLt at hq; omega))
    (fun g p _ => orderedStepC_self_mem ms hne g p.1 p.2)

lemma random_pixPal (hh ww : ℕ) (image : Img ColorQ) (noise : Img ColorQ)
    (palette : Option (List Color))
    (hne : palette.getD defaultPalette ≠ [])
    (hbd : palBounded (palette.getD defaultPalette)) :
    pixPal (random_dither_color hh ww image noise palette)
      (palette.getD defaultPalette) :=
  pixPal_scan _ hh ww image _ hbd
    (fun g p q hq => randomStepC_only noise _ g p.1 p.2
      (by unfold rmLt at hq; omega))
    (fun g p _ => by rw [randomStepC_self]; exact colorQuant_mem hne _)

/-! ## Shape preservation -/

/-- Row lengths of an output raster (its height is the list's length). -/
def shapeOf {β : Type} (out : List (List β)) : List ℕ := out.map List.length

lemma shapeOf_outputImage (hh ww : ℕ) (g : Img ℚ) :
    shapeOf (outputImage hh ww g) = List.replicate hh ww := by
  unfold shapeOf outputImage
  rw [List.map_map]
  have h : (List.length ∘ fun y => (List.range ww).map fun x => toByte (g y x)) =
      fun _ => ww := by
    funext y; simp
  rw [h, List.map_const', List.length_range]

lemma shapeOf_outputImageC (hh ww : ℕ) (g : Img ColorQ) :
    shapeOf (outputImageC hh ww g) = List.replicate hh ww := by
  unfold shapeOf outputImageC
  rw [List.map_map]
  have h : (List.length ∘ fun y => (List.range ww).map fun x => toByte3 (g y x)) =
      fun _ => ww := by
    funext y; simp
  rw [h, List.map_const', List.length_range]

/-! ## Claim theorems -/

/-- C1. Palette closure: for every input raster and every one of the five
methods, every pixel of the returned raster is a member of the active
palette — exactly 0 or 255 in grayscale mode, and exactly one of the
palette's 3-tuples in color mode (for the given palette, or the default
8-color set when none is given).  The palette hypotheses state the spec's
data-model invariants (§3): non-empty, channels in 0-255. -/
theorem C1_palette_closure (hh ww : ℕ) (image : Img ℚ) (cimage : Img ColorQ)
    (s : ℚ) (ms : ℕ) (noise : Img ℚ) (cnoise : Img ColorQ)
    (palette : Option (List Color))
    (hne : palette.getD defaultPalette ≠ [])
    (hbd : palBounded (palette.getD defaultPalette)) :
    pix01 (floyd_steinberg_dither hh ww image s) ∧
    pix01 (atkinson_dither hh ww image s) ∧
    pix01 (jarvis_judice_ninke_dither hh ww image s) ∧
    pix01 (ordered_dither hh ww image ms) ∧
    pix01 (random_dither hh ww image noise) ∧
    pixPal (floyd_steinberg_dither_color hh ww cimage s palette)
      (palette.getD defaultPalette) ∧
    pixPal (atkinson_dither_color hh ww cimage s palette)
      (palette.getD defaultPalette) ∧
    pixPal (jarvis_judice_ninke_dither_color hh ww cimage s palette)
      (palette.getD defaultPalette) ∧
    pixPal (ordered_dither_color hh ww cimage ms palette)
      (palette.getD defaultPalette) ∧
    pixPal (random_dither_color hh ww cimage cnoise palette)
      (palette.getD defaultPalette) :=
  ⟨fs_pix01 hh ww image s, atk_pix01 hh ww image s,
   jjn_pix01 hh ww image s, ordered_pix01 hh ww image ms,
   random_pix01 hh ww image noise,
   fs_pixPal hh ww cimage s palette hne hbd,
   atk_pixPal hh ww cimage s palette hne hbd,
   jjn_pixPal hh ww cimage s palette hne hbd,
   ordered_pixPal hh ww cimage ms palette hne hbd,
   random_pixPal hh ww cimage cnoise palette hne hbd⟩

/-- Witness for C1 at a concrete 2×2 input with the default palette. -/
theorem C1_palette_closure_witness :
    ((none : Option (List Color)).getD defaultPalette ≠ [] ∧
      palBounded ((none : Option (List Color)).getD defaultPalette)) ∧
    (pix01 (floyd_steinberg_dither 2 2 (fun _ _ => 100) 1) ∧
     pix01 (atkinson_dither 2 2 (fun _ _ => 100) 1) ∧
     pix01 (jarvis_judice_ninke_dither 2 2 (fun _ _ => 100) 1) ∧
     pix01 (ordered_dither 2 2 (fun _ _ => 100) 2) ∧
     pix01 (random_dither 2 2 (fun _ _ => 100) (fun _ _ => 5)) ∧
     pixPal (floyd_steinberg_dither_color 2 2 (fun _ _ => (100, 200, 30)) 1 none)
       ((none : Option (List Color)).getD defaultPalette) ∧
     pixPal (atkinson_dither_color 2 2 (fun _ _ => (100, 200, 30)) 1 none)
       ((none : Option (List Color)).getD defaultPalette) ∧
     pixPal (jarvis_judice_ninke_dither_color 2 2 (fun _ _ => (100, 200, 30)) 1 none)
       ((none : Option (List Color)).getD defaultPalette) ∧
     pixPal (ordered_dither_color 2 2 (fun _ _ => (100, 200, 30)) 2 none)
       ((none : Option (List Color)).getD defaultPalette) ∧
     pixPal (random_dither_color 2 2 (fun _ _ => (100, 200, 30))
       (fun _ _ => (1, 2, 3)) none)
       ((none : Option (List Color)).getD defaultPalette)) :=
  ⟨⟨by decide, by decide⟩,
   C1_palette_closure 2 2 (fun _ _ => 100) (fun _ _ => (100, 200, 30)) 1 2
     (fun _ _ => 5) (fun _ _ => (1, 2, 3)) none (by decide) (by decide)⟩

/-- C7. Shape preservation: for every input raster, every method, and
every parameter combination, the returned raster has exactly the input's
height `hh` and width `ww` (every row has length `ww` and there are `hh`
rows); the channel count is preserved by construction (grayscale rasters
are `List (List ℕ)`, 3-channel rasters are `List (List Color)`). -/
theorem C7_shape_preservation (hh ww : ℕ) (image : Img ℚ)
    (cimage : Img ColorQ) (s : ℚ) (ms : ℕ) (noise : Img ℚ)
    (cnoise : Img ColorQ) (palette : Option (List Color)) :
    shapeOf (floyd_steinberg_dither hh ww image s) = List.replicate hh ww ∧
    shapeOf (atkinson_dither hh ww image s) = List.replicate hh ww ∧
    shapeOf (jarvis_judice_ninke_dither hh ww image s) = List.replicate hh ww ∧
    shapeOf (ordered_dither hh ww image ms) = List.replicate hh ww ∧
    shapeOf (random_dither hh ww image noise) = List.replicate hh ww ∧
    shapeOf (floyd_steinberg_dither_color hh ww cimage s palette) =
      List.replicate hh ww ∧
    shapeOf (atkinson_dither_color hh ww cimage s palette) =
      List.replicate hh ww ∧
    shapeOf (jarvis_judice_ninke_dither_color hh ww cimage s palette) =
      List.replicate hh ww ∧
    shapeOf (ordered_dither_color hh ww cimage ms palette) =
      List.replicate hh ww ∧
    shapeOf (random_dither_color hh ww cimage cnoise palette) =
      List.replicate hh ww :=
  ⟨shapeOf_outputImage _ _ _, shapeOf_outputImage _ _ _,
   shapeOf_outputImage _ _ _, shapeOf_outputImage _ _ _,
   shapeOf_outputImage _ _ _, shapeOf_outputImageC _ _ _,
   shapeOf_outputImageC _ _ _, shapeOf_outputImageC _ _ _,
   shapeOf_outputImageC _ _ _, shapeOf_outputImageC _ _ _⟩

/-- C8. Unknown method rejection: for every method name outside the five
recognized identifiers, `apply_dithering` (in either color mode) returns
the `ValueError` `"Unknown dithering method: ..."` and never a raster;
being a pure dispatch on the name, no processing happens before the
failure. -/
theorem C8_unknown_method (hh ww : ℕ) (image : Img ℚ) (cimage : Img ColorQ)
    (method : String) (s : ℚ) (ms : ℕ) (noise : Img ℚ) (cnoise : Img ColorQ)
    (palette : Option (List Color))
    (hm : method ∉ ["floyd_steinberg", "atkinson", "jarvis_judice_ninke",
      "ordered", "random"]) :
    apply_dithering hh ww image method s ms noise =
      Except.error ("Unknown dithering method: " ++ method) ∧
    apply_dithering_color hh ww cimage method s ms cnoise palette =
      Except.error ("Unknown dithering method: " ++ method) := by
  simp only [List.mem_cons, List.not_mem_nil, or_false, not_or] at hm
  obtain ⟨h1, h2, h3, h4, h5⟩ := hm
  constructor
  · unfold apply_dithering
    rw [if_neg h1, if_neg h2, if_neg h3, if_neg h4, if_neg h5]
  · unfold apply_dithering_color
    rw [if_neg h1, if_neg h2, if_neg h3, if_neg h4, if_neg h5]

/-- Witness for C8 at the method name used by the repository's own test
(`test_invalid_method`). -/
theorem C8_unknown_method_witness :
    ("invalid_method" ∉ ["floyd_steinberg", "atkinson", "jarvis_judice_ninke",
      "ordered", "random"]) ∧
    apply_dithering 1 1 (fun _ _ => 0) "invalid_method" 1 4 (fun _ _ => 0) =
      Except.error ("Unknown dithering method: " ++ "invalid_method") ∧
    apply_dithering_color 1 1 (fun _ _ => (0, 0, 0)) "invalid_method" 1 4
      (fun _ _ => (0, 0, 0)) none =
      Except.error ("Unknown dithering method: " ++ "invalid_method") :=
  ⟨by decide,
   C8_unknown_method 1 1 (fun _ _ => 0) (fun _ _ => (0, 0, 0))
     "invalid_method" 1 4 (fun _ _ => 0) (fun _ _ => (0, 0, 0)) none
     (by decide)⟩

/-- C9. Boundary safety: on a 1×1 or a 2×2 grayscale raster, every method
(with any strength, any matrix size, any noise draw) produces a raster
whose pixels are all 0 or 255.  Freedom from out-of-bounds accesses is
structural in the embedding: every neighbour write is wrapped in exactly
the bounds guard of the source (`addIf`), and the Bayer/threshold lookups
at these sizes stay inside the matrices. -/
theorem C9_boundary_safety (hh ww : ℕ)
    (_hdim : (hh = 1 ∧ ww = 1) ∨ (hh = 2 ∧ ww = 2))
    (image : Img ℚ) (s : ℚ) (ms : ℕ) (noise : Img ℚ) :
    pix01 (floyd_steinberg_dither hh ww image s) ∧
    pix01 (atkinson_dither hh ww image s) ∧
    pix01 (jarvis_judice_ninke_dither hh ww image s) ∧
    pix01 (ordered_dither hh ww image ms) ∧
    pix01 (random_dither hh ww image noise) :=
  ⟨fs_pix01 hh ww image s, atk_pix01 hh ww image s,
   jjn_pix01 hh ww image s, ordered_pix01 hh ww image ms,
   random_pix01 hh ww image noise⟩

/-- Witness for C9 on the 2×2 raster `[[100, 150], [200, 50]]` from the
spec's concrete scenario. -/
theorem C9_boundary_safety_witness :
    (((2 : ℕ) = 1 ∧ (2 : ℕ) = 1) ∨ ((2 : ℕ) = 2 ∧ (2 : ℕ) = 2)) ∧
    (pix01 (floyd_steinberg_dither 2 2
        (fun y x => if y = 0 then (if x = 0 then 100 else 150)
          else (if x = 0 then 200 else 50)) 1) ∧
     pix01 (atkinson_dither 2 2
        (fun y x => if y = 0 then (if x = 0 then 100 else 150)
          else (if x = 0 then 200 else 50)) 1) ∧
     pix01 (jarvis_judice_ninke_dither 2 2
        (fun y x => if y = 0 then (if x = 0 then 100 else 150)
          else (if x = 0 then 200 else 50)) 1) ∧
     pix01 (ordered_dither 2 2
        (fun y x => if y = 0 then (if x = 0 then 100 else 150)
          else (if x = 0 then 200 else 50)) 8) ∧
     pix01 (random_dither 2 2
        (fun y x => if y = 0 then (if x = 0 then 100 else 150)
          else (if x = 0 then 200 else 50)) (fun _ _ => 25))) :=
  ⟨by decide,
   C9_boundary_safety 2 2 (by decide)
     (fun y x => if y = 0 then (if x = 0 then 100 else 150)
       else (if x = 0 then 200 else 50)) 1 8 (fun _ _ => 25)⟩

/-! ## Pointwise behaviour of ordered dithering -/

lemma ordered_gray_pointwise (hh ww : ℕ) (image : Img ℚ) (ms : ℕ)
    {y x : ℕ} (hy : y < hh) (hx : x < ww) :
    outGet (ordered_dither hh ww image ms) y x =
      (if image y x > mget (bayerFor ms) (y % ms) (x % ms) * 255
       then 255 else 0) := by
  unfold ordered_dither
  rw [outGet_outputImage _ _ _ hy hx]
  have hpw := scan_pointwise (fun g p => orderedStepG ms g p.1 p.2)
    (coords hh ww)
    ((coords_pairwise hh ww).imp fun h => rmLt_ne h)
    (fun g p q hq => orderedStepG_only ms g p.1 p.2 (by
      obtain ⟨qa, qb⟩ := q
      obtain ⟨pa, pb⟩ := p
      rintro ⟨rfl, rfl⟩
      exact hq rfl))
    (fun g g' p hgp => by
      simp only
      rw [orderedStepG_self, orderedStepG_self, hgp])
    image (y, x) (mem_coords.mpr ⟨hy, hx⟩)
  rw [hpw]
  show toByte (orderedStepG ms image y x y x) = _
  rw [orderedStepG_self]
  split_ifs <;> simp

lemma ordered_color_pointwise (hh ww : ℕ) (cimage : Img ColorQ) (ms : ℕ)
    (palette : Option (List Color)) {y x : ℕ} (hy : y < hh) (hx : x < ww) :
    outGetC (ordered_dither_color hh ww cimage ms palette) y x =
      toByte3 (orderedStepC ms (palette.getD defaultPalette) cimage y x y x) := by
  unfold ordered_dither_color
  rw [outGetC_outputImageC _ _ _ hy hx]
  have hpw := scan_pointwise
    (fun g p => orderedStepC ms (palette.getD defaultPalette) g p.1 p.2)
    (coords hh ww)
    ((coords_pairwise hh ww).imp fun h => rmLt_ne h)
    (fun g p q hq => orderedStepC_only ms _ g p.1 p.2 (by
      obtain ⟨qa, qb⟩ := q
      obtain ⟨pa, pb⟩ := p
      rintro ⟨rfl, rfl⟩
      exact hq rfl))
    (fun g g' p hgp => by
      simp only
      rw [orderedStepC_self, orderedStepC_self, hgp])
    cimage (y, x) (mem_coords.mpr ⟨hy, hx⟩)
  rw [hpw]

/-! ## Minimality of the nearest-color search -/

lemma dist2_nonneg (p : ColorQ) (c : Color) : 0 ≤ dist2 p c := by
  unfold dist2
  positivity

lemma getD_map_dist2 (p : ColorQ) (pal : List Color) {j : ℕ}
    (hj : j < pal.length) :
    (pal.map (dist2 p)).getD j 0 = dist2 p (pal.getD j (0, 0, 0)) := by
  rw [List.getD_eq_getElem?_getD, List.getElem?_map,
    List.getElem?_eq_getElem hj, List.getD_eq_getElem?_getD,
    List.getElem?_eq_getElem hj]
  simp

lemma nearestColor_min (p : ColorQ) {pal : List Color} (hne : pal ≠ []) :
    ∀ j < pal.length,
      dist2 p (nearestColor p pal) ≤ dist2 p (pal.getD j (0, 0, 0)) := by
  intro j hj
  have hidx := nearestIdx_lt_length p hne
  have h1 := @argmin_min (pal.map (dist2 p)) j (by simpa using hj)
  rw [getD_map_dist2 p pal hj] at h1
  calc dist2 p (nearestColor p pal)
      = (pal.map (dist2 p)).getD (nearestIdx p pal) 0 :=
        (getD_map_dist2 p pal hidx).symm
    _ ≤ dist2 p (pal.getD j (0, 0, 0)) := h1

lemma nearestColor_first (p : ColorQ) {pal : List Color} (hne : pal ≠ []) :
    ∀ j < nearestIdx p pal,
      dist2 p (nearestColor p pal) < dist2 p (pal.getD j (0, 0, 0)) := by
  intro j hj
  have hidx := nearestIdx_lt_length p hne
  have hjlen : j < pal.length := lt_trans hj hidx
  have h1 := @argmin_first (pal.map (dist2 p)) j hj
  rw [getD_map_dist2 p pal hjlen] at h1
  calc dist2 p (nearestColor p pal)
      = (pal.map (dist2 p)).getD (nearestIdx p pal) 0 :=
        (getD_map_dist2 p pal hidx).symm
    _ < dist2 p (pal.getD j (0, 0, 0)) := h1

lemma euclidDist_le_of_dist2_le {p : ColorQ} {c c' : Color}
    (h : dist2 p c ≤ dist2 p c') : euclidDist p c ≤ euclidDist p c' :=
  Real.sqrt_le_sqrt (by exact_mod_cast h)

lemma euclidDist_lt_of_dist2_lt {p : ColorQ} {c c' : Color}
    (h : dist2 p c < dist2 p c') : euclidDist p c < euclidDist p c' :=
  Real.sqrt_lt_sqrt (by exact_mod_cast dist2_nonneg p c) (by exact_mod_cast h)

/-- C4. Ordered dithering, grayscale: for matrix sizes 2, 4, 8, each
output pixel `(y,x)` is 255 exactly when the input value is strictly
greater than `bayer[y mod size][x mod size] × 255` (the embedded `bayer2`,
`bayer4`, `bayer8` are the canonical matrices divided by 4, 16, 64), and 0
otherwise; the right-hand side depends only on `y`, `x` and `image y x`,
so each pixel's result depends only on its own coordinates and input
value. -/
theorem C4_ordered_grayscale (hh ww : ℕ) (image : Img ℚ) (ms : ℕ)
    (_hms : ms = 2 ∨ ms = 4 ∨ ms = 8) {y x : ℕ} (hy : y < hh)
    (hx : x < ww) :
    outGet (ordered_dither hh ww image ms) y x =
      (if image y x > mget (bayerFor ms) (y % ms) (x % ms) * 255
       then 255 else 0) :=
  ordered_gray_pointwise hh ww image ms hy hx

/-- Witness for C4 on a 1×1 raster of value 100 with the 2×2 matrix. -/
theorem C4_ordered_grayscale_witness :
    (((2:ℕ) = 2 ∨ (2:ℕ) = 4 ∨ (2:ℕ) = 8) ∧ (0:ℕ) < 1) ∧
    outGet (ordered_dither 1 1 (fun _ _ => 100) 2) 0 0 =
      (if (100 : ℚ) > mget (bayerFor 2) (0 % 2) (0 % 2) * 255
       then 255 else 0) :=
  ⟨⟨by decide, by decide⟩,
   C4_ordered_grayscale 1 1 (fun _ _ => 100) 2 (by decide) (by decide)
     (by decide)⟩

/-- C5. Ordered dithering, color: for a palette whose length is not 2 the
computed Bayer threshold is ignored and each output pixel is the palette
entry nearest (in Euclidean distance) to the input color, ties broken by
first occurrence (every earlier entry is strictly farther); for a 2-entry
palette the mean of the three channels is compared to the threshold,
picking `palette[1]` if strictly greater, else `palette[0]`.  The palette
hypotheses are the spec's data-model invariants (§3). -/
theorem C5_ordered_color_fallback (hh ww : ℕ) (cimage : Img ColorQ)
    (ms : ℕ) (pal : List Color) (hne : pal ≠ []) (hbd : palBounded pal)
    {y x : ℕ} (hy : y < hh) (hx : x < ww) :
    (pal.length ≠ 2 →
      outGetC (ordered_dither_color hh ww cimage ms (some pal)) y x =
        nearestColor (cimage y x) pal ∧
      (∀ j < pal.length,
        euclidDist (cimage y x) (nearestColor (cimage y x) pal) ≤
          euclidDist (cimage y x) (pal.getD j (0, 0, 0))) ∧
      (∀ j < nearestIdx (cimage y x) pal,
        euclidDist (cimage y x) (nearestColor (cimage y x) pal) <
          euclidDist (cimage y x) (pal.getD j (0, 0, 0)))) ∧
    (pal.length = 2 →
      outGetC (ordered_dither_color hh ww cimage ms (some pal)) y x =
        (if ((cimage y x).1 + (cimage y x).2.1 + (cimage y x).2.2) / 3 >
            mget (bayerFor ms) (y % ms) (x % ms) * 255
         then pal.getD 1 (0, 0, 0) else pal.getD 0 (0, 0, 0))) := by
  have hpw := ordered_color_pointwise hh ww cimage ms (some pal) hy hx
  simp only [Option.getD_some] at hpw
  constructor
  · intro h2
    rw [hpw, orderedStepC_self, if_neg h2]
    refine ⟨?_, ?_, ?_⟩
    · unfold colorQuant
      exact toByte3_colorToQ (hbd _ (nearestColor_mem _ hne))
    · intro j hj
      exact euclidDist_le_of_dist2_le (nearestColor_min _ hne j hj)
    · intro j hj
      exact euclidDist_lt_of_dist2_lt (nearestColor_first _ hne j hj)
  · intro h2
    rw [hpw, orderedStepC_self, if_pos h2]
    split_ifs with hgt
    · exact toByte3_colorToQ (hbd _ (getD_mem _ (by omega)))
    · exact toByte3_colorToQ (hbd _ (getD_mem _ (by omega)))

/-- Witness for C5 on a 1×1 color raster with a 3-entry palette. -/
theorem C5_ordered_color_fallback_witness :
    (([((0:ℕ), (0:ℕ), (0:ℕ)), (255, 255, 255), (255, 0, 0)] : List Color)
        ≠ [] ∧
     palBounded [((0:ℕ), (0:ℕ), (0:ℕ)), (255, 255, 255), (255, 0, 0)] ∧
     (0:ℕ) < 1) ∧
    ((([((0:ℕ), (0:ℕ), (0:ℕ)), (255, 255, 255), (255, 0, 0)] :
        List Color).length ≠ 2 →
      outGetC (ordered_dither_color 1 1 (fun _ _ => (10, 20, 30)) 4
          (some [(0, 0, 0), (255, 255, 255), (255, 0, 0)])) 0 0 =
        nearestColor ((10 : ℚ), (20 : ℚ), (30 : ℚ))
          [(0, 0, 0), (255, 255, 255), (255, 0, 0)] ∧
      (∀ j < ([((0:ℕ), (0:ℕ), (0:ℕ)), (255, 255, 255), (255, 0, 0)] :
          List Color).length,
        euclidDist ((10 : ℚ), (20 : ℚ), (30 : ℚ))
            (nearestColor ((10 : ℚ), (20 : ℚ), (30 : ℚ))
              [(0, 0, 0), (255, 255, 255), (255, 0, 0)]) ≤
          euclidDist ((10 : ℚ), (20 : ℚ), (30 : ℚ))
            (([((0:ℕ), (0:ℕ), (0:ℕ)), (255, 255, 255), (255, 0, 0)] :
              List Color).getD j (0, 0, 0))) ∧
      (∀ j < nearestIdx ((10 : ℚ), (20 : ℚ), (30 : ℚ))
          [(0, 0, 0), (255, 255, 255), (255, 0, 0)],
        euclidDist ((10 : ℚ), (20 : ℚ), (30 : ℚ))
            (nearestColor ((10 : ℚ), (20 : ℚ), (30 : ℚ))
              [(0, 0, 0), (255, 255, 255), (255, 0, 0)]) <
          euclidDist ((10 : ℚ), (20 : ℚ), (30 : ℚ))
            (([((0:ℕ), (0:ℕ), (0:ℕ)), (255, 255, 255), (255, 0, 0)] :
              List Color).getD j (0, 0, 0)))) ∧
     (([((0:ℕ), (0:ℕ), (0:ℕ)), (255, 255, 255), (255, 0, 0)] :
        List Color).length = 2 →
      outGetC (ordered_dither_color 1 1 (fun _ _ => (10, 20, 30)) 4
          (some [(0, 0, 0), (255, 255, 255), (255, 0, 0)])) 0 0 =
        (if ((10 : ℚ) + 20 + 30) / 3 >
            mget (bayerFor 4) (0 % 4) (0 % 4) * 255
         then ([((0:ℕ), (0:ℕ), (0:ℕ)), (255, 255, 255), (255, 0, 0)] :
           List Color).getD 1 (0, 0, 0)
         else ([((0:ℕ), (0:ℕ), (0:ℕ)), (255, 255, 255), (255, 0, 0)] :
           List Color).getD 0 (0, 0, 0)))) :=
  ⟨⟨by decide, by decide, by decide⟩,
   C5_ordered_color_fallback 1 1 (fun _ _ => (10, 20, 30)) 4
     [(0, 0, 0), (255, 255, 255), (255, 0, 0)] (by decide) (by decide)
     (by decide) (by decide)⟩

/-! ## Strength-zero degeneracy -/

/-- Modelled from the spec: independent per-pixel thresholding of the
input with the 128 cutoff (255 when strictly greater, else 0) and no
error propagation. -/
def thresholdOutput (hh ww : ℕ) (image : Img ℚ) : List (List ℕ) :=
  (List.range hh).map fun y => (List.range ww).map fun x =>
    if image y x > 128 then 255 else 0

lemma fsStepG_zero (hh ww : ℕ) (g : Img ℚ) (y x : ℕ) :
    fsStepG 0 hh ww g y x = upd g y x (grayQuant (g y x)) := by
  simp only [fsStepG, mul_zero, zero_mul, zero_div]
  rw [addIf_zero, addIf_zero, addIf_zero, addIf_zero]

lemma atkStepG_zero (hh ww : ℕ) (g : Img ℚ) (y x : ℕ) :
    atkStepG 0 hh ww g y x = upd g y x (grayQuant (g y x)) := by
  simp only [atkStepG, mul_zero, zero_mul, zero_div]
  rw [addIf_zero, addIf_zero, addIf_zero, addIf_zero, addIf_zero, addIf_zero]

lemma jjnStepG_zero (hh ww : ℕ) (g : Img ℚ) (y x : ℕ) :
    jjnStepG 0 hh ww g y x = upd g y x (grayQuant (g y x)) := by
  simp only [jjnStepG, mul_zero, zero_mul, zero_div]
  rw [addIf_zero, addIf_zero, addIf_zero, addIf_zero, addIf_zero, addIf_zero,
    addIf_zero, addIf_zero, addIf_zero, addIf_zero, addIf_zero, addIf_zero]

/-- Scanning the pure per-pixel threshold step produces exactly the
spec's independent thresholding of the original input. -/
lemma scan_threshold_output (hh ww : ℕ) (image : Img ℚ) :
    outputImage hh ww
      (scan (fun g p => upd g p.1 p.2 (grayQuant (g p.1 p.2))) image
        (coords hh ww)) = thresholdOutput hh ww image := by
  unfold outputImage thresholdOutput
  apply List.map_congr_left
  intro y hy
  apply List.map_congr_left
  intro x hx
  rw [List.mem_range] at hy hx
  have hpw := scan_pointwise
    (fun g p => upd g p.1 p.2 (grayQuant (g p.1 p.2))) (coords hh ww)
    ((coords_pairwise hh ww).imp fun h => rmLt_ne h)
    (fun g p q hq => upd_apply_ne _ _ _ _ (by
      obtain ⟨qa, qb⟩ := q
      obtain ⟨pa, pb⟩ := p
      rintro ⟨rfl, rfl⟩
      exact hq rfl))
    (fun g g' p hgp => by
      simp only
      rw [upd_apply_self, upd_apply_self, hgp])
    image (y, x) (mem_coords.mpr ⟨hy, hx⟩)
  rw [hpw]
  show toByte (upd image y x (grayQuant (image y x)) y x) = _
  rw [upd_apply_self]
  unfold grayQuant
  split_ifs <;> simp

/-- C6. Strength-zero degeneracy: with `dither_strength = 0` each of
`floyd_steinberg_dither`, `atkinson_dither` and
`jarvis_judice_ninke_dither` (grayscale) returns exactly the raster of
independent per-pixel thresholding of the original input (255 iff value
strictly above 128), with no error propagated to any neighbour. -/
theorem C6_strength_zero_degeneracy (hh ww : ℕ) (image : Img ℚ) :
    floyd_steinberg_dither hh ww image 0 = thresholdOutput hh ww image ∧
    atkinson_dither hh ww image 0 = thresholdOutput hh ww image ∧
    jarvis_judice_ninke_dither hh ww image 0 = thresholdOutput hh ww image := by
  refine ⟨?_, ?_, ?_⟩
  · unfold floyd_steinberg_dither
    rw [scan_congr (fun g p => fsStepG 0 hh ww g p.1 p.2)
      (fun g p => upd g p.1 p.2 (grayQuant (g p.1 p.2))) (coords hh ww)
      (fun g p _ => fsStepG_zero hh ww g p.1 p.2) image]
    exact scan_threshold_output hh ww image
  · unfold atkinson_dither
    rw [scan_congr (fun g p => atkStepG 0 hh ww g p.1 p.2)
      (fun g p => upd g p.1 p.2 (grayQuant (g p.1 p.2))) (coords hh ww)
      (fun g p _ => atkStepG_zero hh ww g p.1 p.2) image]
    exact scan_threshold_output hh ww image
  · unfold jarvis_judice_ninke_dither
    rw [scan_congr (fun g p => jjnStepG 0 hh ww g p.1 p.2)
      (fun g p => upd g p.1 p.2 (grayQuant (g p.1 p.2))) (coords hh ww)
      (fun g p _ => jjnStepG_zero hh ww g p.1 p.2) image]
    exact scan_threshold_output hh ww image

/-! ## Refinement: source loops = generic kernel engine -/

lemma addIf_congr {α : Type} [Add α] {c c' : Prop} [Decidable c]
    [Decidable c'] {y y' x x' : ℕ} {v v' : α} {g g' : Img α}
    (hc : c ↔ c') (hy : y = y') (hx : x = x') (hv : v = v') (hg : g = g') :
    addIf c y x v g = addIf c' y' x' v' g' := by
  subst hy; subst hx; subst hv; subst hg
  unfold addIf
  exact if_congr hc rfl rfl

lemma fsStepG_eq_edStep (s : ℚ) (hh ww : ℕ) (g : Img ℚ) (y x : ℕ)
    (hy : y < hh) (hx : x < ww) :
    fsStepG s hh ww g y x =
      edStep (· * ·) grayQuant fsKernel s hh ww g y x := by
  simp only [fsStepG, edStep, fsKernel, distribute]
  refine addIf_congr (by omega) (by omega) (by omega) (by ring) ?_
  refine addIf_congr (by omega) (by omega) (by omega) (by ring) ?_
  refine addIf_congr (by omega) (by omega) (by omega) (by ring) ?_
  refine addIf_congr (by omega) (by omega) (by omega) (by ring) rfl

lemma atkStepG_eq_edStep (s : ℚ) (hh ww : ℕ) (g : Img ℚ) (y x : ℕ)
    (hy : y < hh) (hx : x < ww) :
    atkStepG s hh ww g y x =
      edStep (· * ·) grayQuant atkKernel s hh ww g y x := by
  simp only [atkStepG, edStep, atkKernel, distribute]
  refine addIf_congr (by omega) (by omega) (by omega) (by ring) ?_
  refine addIf_congr (by omega) (by omega) (by omega) (by ring) ?_
  refine addIf_congr (by omega) (by omega) (by omega) (by ring) ?_
  refine addIf_congr (by omega) (by omega) (by omega) (by ring) ?_
  refine addIf_congr (by omega) (by omega) (by omega) (by ring) ?_
  refine addIf_congr (by omega) (by omega) (by omega) (by ring) rfl

lemma atkStepC_eq_edStep (s : ℚ) (pal : List Color) (hh ww : ℕ)
    (g : Img ColorQ) (y x : ℕ) (hy : y < hh) (hx : x < ww) :
    atkStepC s pal hh ww g y x =
      edStep csmul (colorQuant pal) atkKernel s hh ww g y x := by
  simp only [atkStepC, edStep, atkKernel, distribute]
  refine addIf_congr (by omega) (by omega) (by omega)
    (by simp only [csmul, cdivs, Prod.mk.injEq]; exact ⟨by ring, by ring, by ring⟩) ?_
  refine addIf_congr (by omega) (by omega) (by omega)
    (by simp only [csmul, cdivs, Prod.mk.injEq]; exact ⟨by ring, by ring, by ring⟩) ?_
  refine addIf_congr (by omega) (by omega) (by omega)
    (by simp only [csmul, cdivs, Prod.mk.injEq]; exact ⟨by ring, by ring, by ring⟩) ?_
  refine addIf_congr (by omega) (by omega) (by omega)
    (by simp only [csmul, cdivs, Prod.mk.injEq]; exact ⟨by ring, by ring, by ring⟩) ?_
  refine addIf_congr (by omega) (by omega) (by omega)
    (by simp only [csmul, cdivs, Prod.mk.injEq]; exact ⟨by ring, by ring, by ring⟩) ?_
  refine addIf_congr (by omega) (by omega) (by omega)
    (by simp only [csmul, cdivs, Prod.mk.injEq]; exact ⟨by ring, by ring, by ring⟩) rfl

/-- C2. Floyd-Steinberg, grayscale: the source loop is exactly the spec's
row-major error-diffusion engine — accumulator initialized from the input,
each pixel quantized with the strict-128 threshold, error scaled by
`dither_strength`, distributed with weights 7/16 to (0,+1), 3/16 to
(+1,-1), 5/16 to (+1,0), 1/16 to (+1,+1) (out-of-bounds offsets silently
skipped), final accumulator clamped to [0,255] and returned as 8-bit
integers. -/
theorem C2_floyd_steinberg_algorithm (hh ww : ℕ) (image : Img ℚ) (s : ℚ) :
    floyd_steinberg_dither hh ww image s =
      edDitherGray [⟨0, 1, 7/16⟩, ⟨1, -1, 3/16⟩, ⟨1, 0, 5/16⟩, ⟨1, 1, 1/16⟩]
        s hh ww image := by
  show floyd_steinberg_dither hh ww image s = edDitherGray fsKernel s hh ww image
  unfold floyd_steinberg_dither edDitherGray
  rw [scan_congr _ _ (coords hh ww)
    (fun g p hp => fsStepG_eq_edStep s hh ww g p.1 p.2
      (mem_coords.mp hp).1 (mem_coords.mp hp).2) image]

/-- C3. Atkinson: on every raster (grayscale and color) the source loop
is exactly the spec's engine with the kernel of the six offsets (0,+1),
(0,+2), (+1,-1), (+1,0), (+1,+1), (+2,0), each with weight 1/8 and no
other offset; the distributed total is 6/8, so 2/8 of the error is
discarded even when all six offsets are in bounds. -/
theorem C3_atkinson_kernel (hh ww : ℕ) (image : Img ℚ) (cimage : Img ColorQ)
    (s : ℚ) (palette : Option (List Color)) :
    atkinson_dither hh ww image s = edDitherGray atkKernel s hh ww image ∧
    atkinson_dither_color hh ww cimage s palette =
      edDitherColor atkKernel s hh ww cimage palette ∧
    atkKernel.map (fun k => (k.dy, k.dx)) =
      [(0, 1), (0, 2), (1, -1), (1, 0), (1, 1), (2, 0)] ∧
    (∀ k ∈ atkKernel, k.wt = 1/8) ∧
    (atkKernel.map KEntry.wt).sum = 6/8 := by
  refine ⟨?_, ?_, by decide, ?_, by norm_num [atkKernel]⟩
  · unfold atkinson_dither edDitherGray
    rw [scan_congr _ _ (coords hh ww)
      (fun g p hp => atkStepG_eq_edStep s hh ww g p.1 p.2
        (mem_coords.mp hp).1 (mem_coords.mp hp).2) image]
  · show outputImageC hh ww
        (scan (fun g p =>
          atkStepC s (palette.getD defaultPalette) hh ww g p.1 p.2)
          cimage (coords hh ww)) =
      outputImageC hh ww
        (scan (fun g p =>
          edStep csmul (colorQuant (palette.getD defaultPalette)) atkKernel
            s hh ww g p.1 p.2) cimage (coords hh ww))
    rw [scan_congr _ _ (coords hh ww)
      (fun g p hp => atkStepC_eq_edStep s (palette.getD defaultPalette)
        hh ww g p.1 p.2 (mem_coords.mp hp).1 (mem_coords.mp hp).2) cimage]
  · intro k hk
    fin_cases hk <;> rfl

/-! ## Frame condition: the input array is never written

The very first statement of every dithering function is
`img = image.astype(np.float32)`, which allocates a fresh float buffer;
every subsequent write (`img[...] = ...`, `img[...] += ...`) targets that
copy, and `np.clip(...).astype(np.uint8)` allocates another fresh array
for the result.  We model this with an explicit store of numpy arrays:
a call reads the array at its argument address and appends a freshly
allocated result, leaving every pre-existing array untouched. -/

/-- Read a stored `h × w` uint8 grid as a float accumulator
(`image.astype(np.float32)` reads, but never writes, the input buffer). -/
def readGray (img : List (List ℕ)) : Img ℚ :=
  fun y x => (((img.getD y []).getD x 0 : ℕ) : ℚ)

/-- Read a stored color grid as a float accumulator. -/
def readColor (img : List (List Color)) : Img ColorQ :=
  fun y x => colorToQ ((img.getD y []).getD x (0, 0, 0))

/-- Allocation semantics of one grayscale dithering call on a store of
numpy arrays: read the input at address `a`, append the freshly allocated
output, return the new store and the output's address. -/
def runGray (f : (hh ww : ℕ) → Img ℚ → List (List ℕ))
    (store : List (List (List ℕ))) (a : ℕ) :
    List (List (List ℕ)) × ℕ :=
  let image := store.getD a []
  (store ++ [f image.length (image.getD 0 []).length (readGray image)],
   store.length)

/-- Allocation semantics of one color dithering call. -/
def runColor (f : (hh ww : ℕ) → Img ColorQ → List (List Color))
    (store : List (List (List Color))) (a : ℕ) :
    List (List (List Color)) × ℕ :=
  let image := store.getD a []
  (store ++ [f image.length (image.getD 0 []).length (readColor image)],
   store.length)

lemma runGray_frame (f : (hh ww : ℕ) → Img ℚ → List (List ℕ))
    (store : List (List (List ℕ))) {a : ℕ} (ha : a < store.length) :
    (runGray f store a).1.getD a [] = store.getD a [] := by
  simp only [runGray]
  rw [List.getD_eq_getElem?_getD, List.getElem?_append_left ha,
    ← List.getD_eq_getElem?_getD]

lemma runColor_frame (f : (hh ww : ℕ) → Img ColorQ → List (List Color))
    (store : List (List (List Color))) {a : ℕ} (ha : a < store.length) :
    (runColor f store a).1.getD a [] = store.getD a [] := by
  simp only [runColor]
  rw [List.getD_eq_getElem?_getD, List.getElem?_append_left ha,
    ← List.getD_eq_getElem?_getD]

/-- C10. Every one of the five dithering functions (both modes) leaves
its input array unchanged: after a call on the store of live numpy
arrays, the array at the input's address holds exactly its original
values (all mutation happens on the freshly allocated `astype` copy, and
the returned raster is a new allocation). -/
theorem C10_input_unchanged (store : List (List (List ℕ)))
    (cstore : List (List (List Color))) (a b : ℕ)
    (ha : a < store.length) (hb : b < cstore.length) (s : ℚ) (ms : ℕ)
    (noise : Img ℚ) (cnoise : Img ColorQ) (palette : Option (List Color)) :
    ((runGray (fun hh ww img => floyd_steinberg_dither hh ww img s)
        store a).1.getD a [] = store.getD a []) ∧
    ((runGray (fun hh ww img => atkinson_dither hh ww img s)
        store a).1.getD a [] = store.getD a []) ∧
    ((runGray (fun hh ww img => jarvis_judice_ninke_dither hh ww img s)
        store a).1.getD a [] = store.getD a []) ∧
    ((runGray (fun hh ww img => ordered_dither hh ww img ms)
        store a).1.getD a [] = store.getD a []) ∧
    ((runGray (fun hh ww img => random_dither hh ww img noise)
        store a).1.getD a [] = store.getD a []) ∧
    ((runColor (fun hh ww img =>
        floyd_steinberg_dither_color hh ww img s palette)
        cstore b).1.getD b [] = cstore.getD b []) ∧
    ((runColor (fun hh ww img => atkinson_dither_color hh ww img s palette)
        cstore b).1.getD b [] = cstore.getD b []) ∧
    ((runColor (fun hh ww img =>
        jarvis_judice_ninke_dither_color hh ww img s palette)
        cstore b).1.getD b [] = cstore.getD b []) ∧
    ((runColor (fun hh ww img => ordered_dither_color hh ww img ms palette)
        cstore b).1.getD b [] = cstore.getD b []) ∧
    ((runColor (fun hh ww img => random_dither_color hh ww img cnoise palette)
        cstore b).1.getD b [] = cstore.getD b []) :=
  ⟨runGray_frame _ store ha, runGray_frame _ store ha,
   runGray_frame _ store ha, runGray_frame _ store ha,
   runGray_frame _ store ha, runColor_frame _ cstore hb,
   runColor_frame _ cstore hb, runColor_frame _ cstore hb,
   runColor_frame _ cstore hb, runColor_frame _ cstore hb⟩

/-- Witness for C10 on singleton stores holding a 1×1 array each. -/
theorem C10_input_unchanged_witness :
    ((0 : ℕ) < ([[[100]]] : List (List (List ℕ))).length ∧
     (0 : ℕ) < ([[[((100:ℕ), (100:ℕ), (100:ℕ))]]] :
       List (List (List Color))).length) ∧
    ((runGray (fun hh ww img => floyd_steinberg_dither hh ww img 1)
        [[[100]]] 0).1.getD 0 [] = ([[[100]]] :
          List (List (List ℕ))).getD 0 []) ∧
    ((runGray (fun hh ww img => atkinson_dither hh ww img 1)
        [[[100]]] 0).1.getD 0 [] = ([[[100]]] :
          List (List (List ℕ))).getD 0 []) ∧
    ((runGray (fun hh ww img => jarvis_judice_ninke_dither hh ww img 1)
        [[[100]]] 0).1.getD 0 [] = ([[[100]]] :
          List (List (List ℕ))).getD 0 []) ∧
    ((runGray (fun hh ww img => ordered_dither hh ww img 4)
        [[[100]]] 0).1.getD 0 [] = ([[[100]]] :
          List (List (List ℕ))).getD 0 []) ∧
    ((runGray (fun hh ww img => random_dither hh ww img (fun _ _ => 3))
        [[[100]]] 0).1.getD 0 [] = ([[[100]]] :
          List (List (List ℕ))).getD 0 []) ∧
    ((runColor (fun hh ww img =>
        floyd_steinberg_dither_color hh ww img 1 none)
        [[[(100, 100, 100)]]] 0).1.getD 0 [] =
      ([[[((100:ℕ), (100:ℕ), (100:ℕ))]]] :
        List (List (List Color))).getD 0 []) ∧
    ((runColor (fun hh ww img => atkinson_dither_color hh ww img 1 none)
        [[[(100, 100, 100)]]] 0).1.getD 0 [] =
      ([[[((100:ℕ), (100:ℕ), (100:ℕ))]]] :
        List (List (List Color))).getD 0 []) ∧
    ((runColor (fun hh ww img =>
        jarvis_judice_ninke_dither_color hh ww img 1 none)
        [[[(100, 100, 100)]]] 0).1.getD 0 [] =
      ([[[((100:ℕ), (100:ℕ), (100:ℕ))]]] :
        List (List (List Color))).getD 0 []) ∧
    ((runColor (fun hh ww img => ordered_dither_color hh ww img 4 none)
        [[[(100, 100, 100)]]] 0).1.getD 0 [] =
      ([[[((100:ℕ), (100:ℕ), (100:ℕ))]]] :
        List (List (List Color))).getD 0 []) ∧
    ((runColor (fun hh ww img =>
        random_dither_color hh ww img (fun _ _ => (1, 2, 3)) none)
        [[[(100, 100, 100)]]] 0).1.getD 0 [] =
      ([[[((100:ℕ), (100:ℕ), (100:ℕ))]]] :
        List (List (List Color))).getD 0 []) := by
  have h := C10_input_unchanged [[[100]]] [[[(100, 100, 100)]]] 0 0
    (by decide) (by decide) 1 4 (fun _ _ => 3) (fun _ _ => (1, 2, 3)) none
  exact ⟨⟨by decide, by decide⟩, h.1, h.2.1, h.2.2.1, h.2.2.2.1, h.2.2.2.2.1,
    h.2.2.2.2.2.1, h.2.2.2.2.2.2.1, h.2.2.2.2.2.2.2.1,
    h.2.2.2.2.2.2.2.2.1, h.2.2.2.2.2.2.2.2.2⟩

end VideoDithering
